import Mathlib

/-!
# NTFSParse: boot sector, MFT record and attribute decoding

A shallow embedding of `NTFSParse.C`.  A `std::vector<BYTE>` is a list of bytes.
Every multi-byte field the program obtains through `reinterpret_cast` is an
`Access` (first byte index and width); an access that is not wholly inside the
vector has no defined value in C++ and is reported by the model as a fault.
`DWORD` arithmetic is taken modulo `2^32`, `ULONGLONG` arithmetic modulo `2^64`.
-/

set_option maxRecDepth 200000

namespace NTFSParse

/-! ## Bytes and accesses -/

/-- One `BYTE`. -/
abbrev Byte := Fin 256

/-- A `std::vector<BYTE>`. -/
abbrev Buffer := List Byte

/-- Little-endian value of a run of bytes. -/
def leValue : List Byte → Nat
  | [] => 0
  | b :: bs => b.val + 256 * leValue bs

/-- One read of `width` bytes starting at `buffer[index]`. -/
structure Access where
  index : Nat
  width : Nat
deriving DecidableEq

/-- All bytes touched by the access lie inside the vector. -/
def inBounds (buf : Buffer) (a : Access) : Bool :=
  decide (a.index + a.width ≤ buf.length)

/-- The little-endian value found by an access. -/
def fetch (buf : Buffer) (a : Access) : Nat :=
  leValue ((buf.drop a.index).take a.width)

/-- A checked read: `none` when the access leaves the vector. -/
def readLE (buf : Buffer) (index width : Nat) : Option Nat :=
  if inBounds buf ⟨index, width⟩ then some (fetch buf ⟨index, width⟩) else none

/-- The first access of a sequence that leaves the vector, if any. -/
def firstOutside (buf : Buffer) : List Access → Option Access
  | [] => none
  | a :: as => if inBounds buf a then firstOutside buf as else some a

/-- The accesses of a sequence that are performed: all of them up to and
including the first one that leaves the vector. -/
def performed (buf : Buffer) : List Access → List Access
  | [] => []
  | a :: as => if inBounds buf a then a :: performed buf as else [a]

/-- Truncation to a `DWORD`. -/
def u32 (n : Nat) : Nat := n % 2 ^ 32

/-- Truncation to a `ULONGLONG`. -/
def u64 (n : Nat) : Nat := n % 2 ^ 64

/-! ## FileTimeToString -/

/-- The constant `EPOCH_DIFFERENCE`. -/
def EPOCH_DIFFERENCE : Nat := 11644473600

/-- The `ULONGLONG` value of `seconds - EPOCH_DIFFERENCE` for
`seconds = fileTime / 10000000ULL`: an unsigned subtraction, modulo `2^64`. -/
def secondsMinusEpoch (fileTime : Nat) : Nat :=
  u64 (fileTime / 10000000 + 2 ^ 64 - EPOCH_DIFFERENCE)

/-- The conversion `static_cast<time_t>` of a `ULONGLONG` to the signed 64-bit
`time_t`. -/
def toTimeT (n : Nat) : Int :=
  if n < 2 ^ 63 then (n : Int) else (n : Int) - 2 ^ 64

/-- The local `unixTime` of `FileTimeToString`. -/
def unixTime (fileTime : Nat) : Int :=
  toTimeT (secondsMinusEpoch fileTime)

/-- The function `FileTimeToString`.  The C runtime calls `gmtime_s` and
`strftime(.., "%Y-%m-%d %H:%M:%S", ..)` are not part of the repository; their
composition is the parameter `render`.  The source does not look at the return
code of `gmtime_s`: a string is returned on every path. -/
def FileTimeToString (render : Int → String) (fileTime : Nat) : String :=
  render (unixTime fileTime)

/-- Broken-down calendar time (`struct tm`, with the year and month as written
on a calendar). -/
structure Tm where
  year : Nat
  month : Nat
  day : Nat
  hour : Nat
  minute : Nat
  second : Nat
deriving DecidableEq

/-- Leap years of the Gregorian calendar. -/
def isLeapYear (year : Nat) : Bool :=
  (year % 4 == 0 && year % 100 != 0) || year % 400 == 0

/-- The number of days of a year. -/
def daysInYear (year : Nat) : Nat :=
  if isLeapYear year then 366 else 365

/-- The number of days of month `month` (1 to 12) of a year. -/
def daysInMonth (year month : Nat) : Nat :=
  if month = 2 then (if isLeapYear year then 29 else 28)
  else if month = 4 ∨ month = 6 ∨ month = 9 ∨ month = 11 then 30 else 31

/-- Walks forward year by year: the year containing day number `day` counted
from the first of January of `year`, and the day number within that year. -/
def yearOfDay : Nat → Nat → Nat → Nat × Nat
  | 0, year, day => (year, day)
  | fuel + 1, year, day =>
    if day < daysInYear year then (year, day)
    else yearOfDay fuel (year + 1) (day - daysInYear year)

/-- Walks forward month by month within a year: the month containing day number
`day` counted from the first of `month`, and the day number within it. -/
def monthOfDay (year : Nat) : Nat → Nat → Nat → Nat × Nat
  | 0, month, day => (month, day)
  | fuel + 1, month, day =>
    if day < daysInMonth year month then (month, day)
    else monthOfDay year fuel (month + 1) (day - daysInMonth year month)

/-- A model of the C runtime's `gmtime_s`: seconds since 1970-01-01 00:00:00 to
UTC calendar fields.  Whole periods of 400 years (146097 days) are skipped
first, then the years and the months are walked. -/
def gmtimeUTC (t : Int) : Tm :=
  let seconds := t.toNat
  let days := seconds / 86400
  let rest := seconds % 86400
  let yd := yearOfDay 401 (1970 + 400 * (days / 146097)) (days % 146097)
  let md := monthOfDay yd.1 12 1 yd.2
  { year := yd.1, month := md.1, day := md.2 + 1,
    hour := rest / 3600, minute := rest % 3600 / 60, second := rest % 60 }

/-- The decimal digit character of `n % 10`. -/
def digitChar (n : Nat) : Char :=
  match n % 10 with
  | 0 => '0' | 1 => '1' | 2 => '2' | 3 => '3' | 4 => '4'
  | 5 => '5' | 6 => '6' | 7 => '7' | 8 => '8' | _ => '9'

/-- Two decimal digits, zero padded (`%m`, `%d`, `%H`, `%M`, `%S`). -/
def pad2 (n : Nat) : List Char :=
  [digitChar (n / 10), digitChar n]

/-- The decimal digits of a number, most significant first. -/
def decimalChars : Nat → Nat → List Char
  | 0, _ => []
  | fuel + 1, n =>
    if n < 10 then [digitChar n] else decimalChars fuel (n / 10) ++ [digitChar n]

/-- The year as `%Y` prints it: all its decimal digits, however many. -/
def yearChars (year : Nat) : List Char :=
  decimalChars 20 year

/-- A model of `strftime` with the format `"%Y-%m-%d %H:%M:%S"`. -/
def strftimeYmdHMS (tm : Tm) : String :=
  String.mk (yearChars tm.year ++ ['-'] ++ pad2 tm.month ++ ['-'] ++ pad2 tm.day ++ [' ']
    ++ pad2 tm.hour ++ [':'] ++ pad2 tm.minute ++ [':'] ++ pad2 tm.second)

/-- The runtime rendering used for concrete evaluations: `gmtime_s` followed by
`strftime`.  A C runtime may reject a negative time value; nothing below
depends on what this function returns for one. -/
def utcRender (t : Int) : String :=
  strftimeYmdHMS (gmtimeUTC t)

/-! ## Boot sector decoding in ReadAndParseMFT -/

/-- The values `ReadAndParseMFT` derives from the boot sector. -/
structure BootSectorInfo where
  sectorSize : Nat
  mftStartCluster : Nat
  clusterSize : Nat
  mftStartLcn : Nat
deriving DecidableEq

/-- Lines 137-140 of `ReadAndParseMFT`: the sector size is the `WORD` at 0x0B,
the MFT start cluster the `ULONGLONG` at 0x30, and both derived values are
multiplied by the literal 8.  The byte at 0x0D is not read.  `none` when the
vector does not hold the two fields (the program always passes 512 bytes). -/
def decodeBootSector (bootSector : Buffer) : Option BootSectorInfo :=
  match readLE bootSector 0x0B 2, readLE bootSector 0x30 8 with
  | some sectorSize, some mftStartCluster =>
      some { sectorSize := sectorSize
             mftStartCluster := mftStartCluster
             clusterSize := u32 (sectorSize * 8)
             mftStartLcn := u64 (mftStartCluster * 8) }
  | _, _ => none

/-- The sectors-per-cluster byte of a boot sector (offset 0x0D), which the
specification asks the decoder to use. -/
def sectorsPerCluster (bootSector : Buffer) : Option Nat :=
  readLE bootSector 0x0D 1

/-! ## ParseAndPrintMFTRecord -/

/-- The header fields decoded at lines 56-66. -/
structure MftRecordHeader where
  fixupOffset : Nat
  fixupEntryCount : Nat
  lsn : Nat
  sequenceNumber : Nat
  hardLinkCount : Nat
  firstAttributeOffset : Nat
  flags : Nat
  usedSize : Nat
  allocatedSize : Nat
  baseRecordReference : Nat
  nextAttributeID : Nat
deriving DecidableEq

/-- What the attribute loop prints for one attribute. -/
inductive Decoded where
  | standardInformation (creationTime modificationTime mftChangeTime lastAccessTime : String)
  | fileName (fileName : List Nat)
deriving DecidableEq

/-- One completed iteration of the attribute loop. -/
structure Visit where
  attributeOffset : Nat
  attributeType : Nat
  length : Nat
  decoded : List Decoded
deriving DecidableEq

/-- Output of one of the two decoding blocks of the loop body. -/
structure Block where
  accesses : List Access
  decoded : List Decoded
  fault : Option Access
deriving DecidableEq

/-- The block that is not entered. -/
def Block.skip : Block := ⟨[], [], none⟩

/-- The four timestamp reads of lines 94-97. -/
def standardInformationAccesses (attributeOffset : Nat) : List Access :=
  [⟨u32 (attributeOffset + 24), 8⟩, ⟨u32 (attributeOffset + 32), 8⟩,
   ⟨u32 (attributeOffset + 40), 8⟩, ⟨u32 (attributeOffset + 48), 8⟩]

/-- Lines 88-103: the body of `if (attributeType == 0x10)`. -/
def standardInformationBlock (render : Int → String) (buf : Buffer)
    (attributeOffset : Nat) : Block :=
  match firstOutside buf (standardInformationAccesses attributeOffset) with
  | some a => ⟨performed buf (standardInformationAccesses attributeOffset), [], some a⟩
  | none =>
      ⟨standardInformationAccesses attributeOffset,
       [Decoded.standardInformation
          (FileTimeToString render (fetch buf ⟨u32 (attributeOffset + 24), 8⟩))
          (FileTimeToString render (fetch buf ⟨u32 (attributeOffset + 32), 8⟩))
          (FileTimeToString render (fetch buf ⟨u32 (attributeOffset + 40), 8⟩))
          (FileTimeToString render (fetch buf ⟨u32 (attributeOffset + 48), 8⟩))],
       none⟩

/-- The 16-bit code units of a run of bytes (`wchar_t` is two bytes, low byte
first). -/
def wcharUnits : List Byte → List Nat
  | b0 :: b1 :: rest => (b0.val + 256 * b1.val) :: wcharUnits rest
  | _ => []

/-- Lines 104-111: the body of `if (attributeType == 0x30)`; the `std::wstring`
constructor copies `nameLength` code units starting at
`buffer[attributeOffset + 90]`. -/
def fileNameBlock (buf : Buffer) (attributeOffset : Nat) : Block :=
  if inBounds buf ⟨u32 (attributeOffset + 88), 1⟩ then
    let nameLength := fetch buf ⟨u32 (attributeOffset + 88), 1⟩
    if inBounds buf ⟨u32 (attributeOffset + 90), 2 * nameLength⟩ then
      ⟨[⟨u32 (attributeOffset + 88), 1⟩, ⟨u32 (attributeOffset + 90), 2 * nameLength⟩],
       [Decoded.fileName
          (wcharUnits ((buf.drop (u32 (attributeOffset + 90))).take (2 * nameLength)))],
       none⟩
    else
      ⟨[⟨u32 (attributeOffset + 88), 1⟩, ⟨u32 (attributeOffset + 90), 2 * nameLength⟩], [],
       some ⟨u32 (attributeOffset + 90), 2 * nameLength⟩⟩
  else
    ⟨[⟨u32 (attributeOffset + 88), 1⟩], [], some ⟨u32 (attributeOffset + 88), 1⟩⟩

/-- How one pass through the loop ends. -/
inductive Next where
  | leave
  | goto (attributeOffset : Nat)
  | fault (a : Access)
deriving DecidableEq

/-- One pass through `while (attributeOffset < usedSize)`: the accesses made,
the completed visit if the pass reaches `attributeOffset += length`, and where
control goes. -/
structure Iteration where
  accesses : List Access
  visit : Option Visit
  next : Next
deriving DecidableEq

/-- Lines 82-113, one pass: loop test, type read, terminator test, length read,
the two decoding blocks, and the `DWORD` addition `attributeOffset += length`. -/
def attributeStep (render : Int → String) (buf : Buffer) (usedSize attributeOffset : Nat) :
    Iteration :=
  if attributeOffset < usedSize then
    if inBounds buf ⟨attributeOffset, 4⟩ then
      let attributeType := fetch buf ⟨attributeOffset, 4⟩
      if attributeType = 0xFFFFFFFF then
        ⟨[⟨attributeOffset, 4⟩], none, Next.leave⟩
      else if inBounds buf ⟨u32 (attributeOffset + 4), 4⟩ then
        let length := fetch buf ⟨u32 (attributeOffset + 4), 4⟩
        let si := if attributeType = 0x10 then
            standardInformationBlock render buf attributeOffset else Block.skip
        let fn := if attributeType = 0x30 then
            fileNameBlock buf attributeOffset else Block.skip
        let header : List Access := [⟨attributeOffset, 4⟩, ⟨u32 (attributeOffset + 4), 4⟩]
        match si.fault with
        | some a => ⟨header ++ si.accesses, none, Next.fault a⟩
        | none =>
          match fn.fault with
          | some a => ⟨header ++ si.accesses ++ fn.accesses, none, Next.fault a⟩
          | none =>
            ⟨header ++ si.accesses ++ fn.accesses,
             some ⟨attributeOffset, attributeType, length, si.decoded ++ fn.decoded⟩,
             Next.goto (u32 (attributeOffset + length))⟩
      else
        ⟨[⟨attributeOffset, 4⟩, ⟨u32 (attributeOffset + 4), 4⟩], none,
         Next.fault ⟨u32 (attributeOffset + 4), 4⟩⟩
    else
      ⟨[⟨attributeOffset, 4⟩], none, Next.fault ⟨attributeOffset, 4⟩⟩
  else
    ⟨[], none, Next.leave⟩

/-- How the attribute loop ends: left by the loop test or the terminator (with
the final `attributeOffset`), stopped by an access outside the vector, or still
running when the iteration budget is spent. -/
inductive Stop where
  | finished (attributeOffset : Nat)
  | fault (a : Access)
  | outOfFuel (attributeOffset : Nat)
deriving DecidableEq

/-- Everything observed of the attribute loop. -/
structure WalkResult where
  visits : List Visit
  accesses : List Access
  stop : Stop
deriving DecidableEq

/-- The attribute loop of lines 81-113, run for at most `fuel` loop tests. -/
def walk (render : Int → String) (buf : Buffer) (usedSize : Nat) : Nat → Nat → WalkResult
  | 0, attributeOffset => ⟨[], [], Stop.outOfFuel attributeOffset⟩
  | fuel + 1, attributeOffset =>
    match attributeStep render buf usedSize attributeOffset with
    | ⟨accesses, _, Next.leave⟩ => ⟨[], accesses, Stop.finished attributeOffset⟩
    | ⟨accesses, _, Next.fault a⟩ => ⟨[], accesses, Stop.fault a⟩
    | ⟨accesses, visit, Next.goto next⟩ =>
      let rest := walk render buf usedSize fuel next
      ⟨visit.toList ++ rest.visits, accesses ++ rest.accesses, rest.stop⟩

/-- The eleven header reads of lines 56-66, in source order. -/
def headerAccesses : List Access :=
  [⟨4, 2⟩, ⟨6, 2⟩, ⟨8, 8⟩, ⟨16, 2⟩, ⟨18, 2⟩, ⟨20, 2⟩, ⟨22, 2⟩, ⟨24, 4⟩, ⟨28, 4⟩, ⟨32, 8⟩,
   ⟨40, 2⟩]

/-- Lines 56-66. -/
def decodeHeader (buf : Buffer) : MftRecordHeader :=
  { fixupOffset := fetch buf ⟨4, 2⟩
    fixupEntryCount := fetch buf ⟨6, 2⟩
    lsn := fetch buf ⟨8, 8⟩
    sequenceNumber := fetch buf ⟨16, 2⟩
    hardLinkCount := fetch buf ⟨18, 2⟩
    firstAttributeOffset := fetch buf ⟨20, 2⟩
    flags := fetch buf ⟨22, 2⟩
    usedSize := fetch buf ⟨24, 4⟩
    allocatedSize := fetch buf ⟨28, 4⟩
    baseRecordReference := fetch buf ⟨32, 8⟩
    nextAttributeID := fetch buf ⟨40, 2⟩ }

/-- The ASCII bytes of `"FILE"`. -/
def fileSignature : List Byte := [0x46, 0x49, 0x4C, 0x45]

/-- What `ParseAndPrintMFTRecord` does with one record buffer. -/
inductive ParseResult where
  | invalidSignature (signature : List Byte)
  | record (header : MftRecordHeader) (attributes : WalkResult)
  | fault (a : Access)
deriving DecidableEq

/-- The function `ParseAndPrintMFTRecord` (lines 46-118): signature test, header
decoding, attribute loop; the else branch only prints the signature. -/
def ParseAndPrintMFTRecord (render : Int → String) (fuel : Nat) (buffer : Buffer) :
    ParseResult :=
  if inBounds buffer ⟨0, 4⟩ then
    if buffer.take 4 = fileSignature then
      match firstOutside buffer headerAccesses with
      | some a => ParseResult.fault a
      | none =>
        ParseResult.record (decodeHeader buffer)
          (walk render buffer (decodeHeader buffer).usedSize fuel
            (decodeHeader buffer).firstAttributeOffset)
    else
      ParseResult.invalidSignature (buffer.take 4)
  else
    ParseResult.fault ⟨0, 4⟩

/-- The decoded header, when the record was accepted. -/
def ParseResult.header : ParseResult → Option MftRecordHeader
  | ParseResult.record h _ => some h
  | _ => none

/-- The attribute loop's observation, when the loop was entered. -/
def ParseResult.attributes : ParseResult → Option WalkResult
  | ParseResult.record _ w => some w
  | _ => none

/-! ## Building concrete vectors -/

/-- The bytes of `value` in a little-endian field of `width` bytes. -/
def leBytes : Nat → Nat → List Byte
  | 0, _ => []
  | width + 1, value => Fin.ofNat value :: leBytes width (value / 256)

/-- Overwrites the bytes of `buf` from `index` on with `bytes`. -/
def poke (buf : Buffer) (index : Nat) (bytes : List Byte) : Buffer :=
  buf.take index ++ bytes ++ buf.drop (index + bytes.length)

/-- A vector of `n` zero bytes. -/
def zeros (n : Nat) : Buffer := List.replicate n 0

/-- A record of `size` bytes with the signature `"FILE"`, the given
`firstAttributeOffset`, `usedSize` and `allocatedSize`, and zeros elsewhere. -/
def blankRecord (size firstAttributeOffset usedSize allocatedSize : Nat) : Buffer :=
  poke (poke (poke (poke (zeros size) 0 fileSignature) 20 (leBytes 2 firstAttributeOffset))
    24 (leBytes 4 usedSize)) 28 (leBytes 4 allocatedSize)

/-- The boot sector used below: 512-byte sectors, one sector per cluster, MFT at
cluster 4. -/
def bootSectorOnePerCluster : Buffer :=
  poke (poke (poke (zeros 512) 0x0B (leBytes 2 512)) 0x0D (leBytes 1 1)) 0x30 (leBytes 8 4)

/-- A 1024-byte record whose first attribute, at offset 56 inside the used
area, has type 0x10 and a length field of 0. -/
def zeroLengthRecord : Buffer :=
  poke (blankRecord 1024 56 1024 1024) 56 (leBytes 4 0x10 ++ leBytes 4 0)

/-- A 1024-byte record with one $STANDARD_INFORMATION attribute (type 0x10,
length 96) at offset 56, holding the four given timestamps, followed by the
terminator at offset 152. -/
def standardInformationRecord (usedSize creation modification mftChange lastAccess : Nat) :
    Buffer :=
  poke (poke (blankRecord 1024 56 usedSize 1024) 56
      (leBytes 4 0x10 ++ leBytes 4 96 ++ zeros 16 ++ leBytes 8 creation ++
        leBytes 8 modification ++ leBytes 8 mftChange ++ leBytes 8 lastAccess))
    152 (leBytes 4 0xFFFFFFFF)

/-- The record of the end-to-end example: used size 160 and four distinct
timestamps. -/
def exampleRecord : Buffer :=
  standardInformationRecord 160 132223104000000000 132223968000000000
    132224832000000000 132225696000000000

/-! ## The attribute list as the specification describes it -/

/-- Offset, type and length of one attribute of a record. -/
structure AttributeHeader where
  offset : Nat
  attributeType : Nat
  length : Nat
deriving DecidableEq

/-- The attribute list found in the bytes `buf` (a record vector, or a record
vector together with the bytes that follow it in memory) from cursor `o` on:
`AttributeChain buf usedSize o attrs stop` says that the attributes `attrs`
stand at the cursors `o_0 = o`, `o_(i+1) = o_i + length_i`, each below
`usedSize`, each with its type field (4 bytes at the cursor) and its length
field (the next 4 bytes) inside `buf`, a type other than 0xFFFFFFFF, a length
above 0 and `o_i + length_i ≤ usedSize`; and that `stop`, the cursor after the
last of them, is the first cursor that is at or beyond `usedSize` or carries
the type 0xFFFFFFFF (its 4 type bytes inside `buf`). -/
inductive AttributeChain (buf : Buffer) (usedSize : Nat) :
    Nat → List AttributeHeader → Nat → Prop where
  | bound (o : Nat) : usedSize ≤ o → AttributeChain buf usedSize o [] o
  | terminator (o : Nat) : o < usedSize → o + 4 ≤ buf.length →
      fetch buf ⟨o, 4⟩ = 0xFFFFFFFF → AttributeChain buf usedSize o [] o
  | entry (o ty len : Nat) (rest : List AttributeHeader) (stop : Nat) :
      o < usedSize → o + 8 ≤ buf.length → fetch buf ⟨o, 4⟩ = ty → ty ≠ 0xFFFFFFFF →
      fetch buf ⟨o + 4, 4⟩ = len → 0 < len → o + len ≤ usedSize →
      AttributeChain buf usedSize (o + len) rest stop →
      AttributeChain buf usedSize o (⟨o, ty, len⟩ :: rest) stop

/-- The attributes from cursor `o` on lie within the used area and hold what is
read from them: every cursor reached is at or beyond `usedSize`, or carries the
terminator 0xFFFFFFFF with its 4 bytes below `usedSize`, or carries an
attribute whose length is at least 8 (type and length fields), at least 56 for
type 0x10 (the four timestamps end at offset 56), at least
`90 + 2 * nameLength` for type 0x30 (`nameLength` being the byte at offset 88),
and with `cursor + length ≤ usedSize`. -/
inductive AttributesWithin (buf : Buffer) (usedSize : Nat) : Nat → Prop where
  | bound (o : Nat) : usedSize ≤ o → AttributesWithin buf usedSize o
  | terminator (o : Nat) : o + 4 ≤ usedSize → fetch buf ⟨o, 4⟩ = 0xFFFFFFFF →
      AttributesWithin buf usedSize o
  | entry (o : Nat) : fetch buf ⟨o, 4⟩ ≠ 0xFFFFFFFF →
      8 ≤ fetch buf ⟨o + 4, 4⟩ → o + fetch buf ⟨o + 4, 4⟩ ≤ usedSize →
      (fetch buf ⟨o, 4⟩ = 0x10 → 56 ≤ fetch buf ⟨o + 4, 4⟩) →
      (fetch buf ⟨o, 4⟩ = 0x30 →
        90 + 2 * fetch buf ⟨o + 88, 1⟩ ≤ fetch buf ⟨o + 4, 4⟩) →
      AttributesWithin buf usedSize (o + fetch buf ⟨o + 4, 4⟩) →
      AttributesWithin buf usedSize o

/-- The call of `ParseAndPrintMFTRecord` on the record vector `buffer` as the
compiled program carries it out when the bytes that follow the vector in memory
are `beyond`: the program makes no bounds test, and a read past the end of the
vector finds those bytes. -/
def ParseAndPrintMFTRecordInMemory (render : Int → String) (fuel : Nat)
    (buffer beyond : Buffer) : ParseResult :=
  ParseAndPrintMFTRecord render fuel (buffer ++ beyond)

/-- A 1024-byte record, wholly used, whose only attribute (type 0x80, length
966, at offset 56) ends at offset 1022, two bytes before the end of the
record. -/
def nearEndRecord : Buffer :=
  poke (blankRecord 1024 56 1024 1024) 56 (leBytes 4 0x80 ++ leBytes 4 966)

/-- What decoding an attribute is to produce: for type 0x10 the four time
strings of the little-endian u64 values at offsets 24, 32, 40 and 48, for type
0x30 the `nameLength` code units from offset 90, for any other type nothing. -/
def decodedFields (render : Int → String) (buf : Buffer) (h : AttributeHeader) :
    List Decoded :=
  if h.attributeType = 0x10 then
    [Decoded.standardInformation
      (FileTimeToString render (fetch buf ⟨h.offset + 24, 8⟩))
      (FileTimeToString render (fetch buf ⟨h.offset + 32, 8⟩))
      (FileTimeToString render (fetch buf ⟨h.offset + 40, 8⟩))
      (FileTimeToString render (fetch buf ⟨h.offset + 48, 8⟩))]
  else if h.attributeType = 0x30 then
    [Decoded.fileName
      (wcharUnits ((buf.drop (h.offset + 90)).take (2 * fetch buf ⟨h.offset + 88, 1⟩)))]
  else []

/-- The visit the loop is to make of an attribute. -/
def expectedVisit (render : Int → String) (buf : Buffer) (h : AttributeHeader) : Visit :=
  ⟨h.offset, h.attributeType, h.length, decodedFields render buf h⟩

/-- A 1024-byte record, wholly used and allocated, whose only attribute has
type 0x30 and length 16 and ends exactly at the end of the record. -/
def shortFileNameRecord : Buffer :=
  poke (blankRecord 1024 1008 1024 1024) 1008 (leBytes 4 0x30 ++ leBytes 4 16)

/-- A 1024-byte record with used size 400 holding three attributes and the
terminator: type 0x10 (length 96) at 56, type 0x30 (length 104, the name "ab")
at 152, type 0x80 (length 24) at 256, terminator at 280. -/
def threeAttributeRecord : Buffer :=
  poke (poke (poke (poke (poke (poke (blankRecord 1024 56 400 1024)
    56 (leBytes 4 0x10 ++ leBytes 4 96 ++ zeros 16 ++ leBytes 8 132223104000000000 ++
      leBytes 8 132223968000000000 ++ leBytes 8 132224832000000000 ++
      leBytes 8 132225696000000000))
    152 (leBytes 4 0x30 ++ leBytes 4 104))
    240 (leBytes 1 2))
    242 (leBytes 2 0x61 ++ leBytes 2 0x62))
    256 (leBytes 4 0x80 ++ leBytes 4 24))
    280 (leBytes 4 0xFFFFFFFF)

/-- The record of the end-to-end example with the used-size field set to 4096,
four times the length of the buffer. -/
def oversizedRecord : Buffer :=
  standardInformationRecord 4096 132223104000000000 132223968000000000
    132224832000000000 132225696000000000

/-- A 1024-byte record as it lies on disk under the update-sequence scheme:
`fixupOffset = 48`, `fixupEntryCount = 3`, marker 0x01D5 at offset 48, saved
words 0x01DA and 0x0000 at offsets 50 and 52.  The last two bytes of the first
sector (510, 511) hold the marker; those of the second sector (1022, 1023) hold
0x0000, which is not the marker.  A type-0x10 attribute of length 96 stands at
offset 480, so that its creation time occupies bytes 504 to 511; the terminator
follows at 576. -/
def fixupRecord : Buffer :=
  poke (poke (poke (poke (blankRecord 1024 480 1024 1024)
    4 (leBytes 2 48 ++ leBytes 2 3))
    48 (leBytes 2 0x01D5 ++ leBytes 2 0x01DA ++ leBytes 2 0x0000))
    480 (leBytes 4 0x10 ++ leBytes 4 96 ++ zeros 16 ++ leBytes 6 0 ++ leBytes 2 0x01D5 ++
      leBytes 8 133419138960850944 ++ leBytes 8 133419138960850944 ++
      leBytes 8 133419138960850944))
    576 (leBytes 4 0xFFFFFFFF)

/-! ## Little-endian fields as the specification names them -/

/-- The little-endian value of the `width` bytes at `offset`: the byte at
`offset` counts once, the next one 256 times, and so on. -/
def littleEndianAt (buf : Buffer) (offset : Nat) : Nat → Nat
  | 0 => 0
  | width + 1 => (buf.getD offset 0).val + 256 * littleEndianAt buf (offset + 1) width

/-- A $FILE_NAME attribute slice of exactly 100 bytes: name length 5 at offset
88 and the five code units of "hello" from offset 90. -/
def helloSlice : Buffer :=
  poke (poke (zeros 100) 88 (leBytes 1 5))
    90 (leBytes 2 0x68 ++ leBytes 2 0x65 ++ leBytes 2 0x6C ++ leBytes 2 0x6C ++ leBytes 2 0x6F)

/-- A 1024-byte record with used size 72 whose only attribute, at offset 56, has
type 0x30 and length 16; the byte at offset 56 + 88 is 2 and the four bytes
from offset 56 + 90 are the code units of "ab". -/
def shortNameRecord : Buffer :=
  poke (poke (poke (blankRecord 1024 56 72 1024) 56 (leBytes 4 0x30 ++ leBytes 4 16))
    144 (leBytes 1 2)) 146 (leBytes 2 0x61 ++ leBytes 2 0x62)

/-- A 1024-byte record with used size 160 whose attribute at offset 56 has type
0x10 and a length field of 2000, so that it ends far beyond the used size. -/
def overlongRecord : Buffer :=
  poke (blankRecord 1024 56 160 1024) 56
    (leBytes 4 0x10 ++ leBytes 4 2000 ++ zeros 16 ++ leBytes 8 132223104000000000 ++
      leBytes 8 132223968000000000 ++ leBytes 8 132224832000000000 ++
      leBytes 8 132225696000000000)

/-- A 1024-byte record, wholly used, with two attributes of type 0x80 and no
length field equal to 0: the one at offset 56 has length 16, the one at offset
72 has length `2^32 - 16`. -/
def wrappingRecord : Buffer :=
  poke (poke (blankRecord 1024 56 1024 1024) 56 (leBytes 4 0x80 ++ leBytes 4 16))
    72 (leBytes 4 0x80 ++ leBytes 4 0xFFFFFFF0)

/-! ## The number of passes of the attribute loop -/

/-- How many times the body of `while (attributeOffset < usedSize)` is entered
within `fuel` loop tests, starting at `attributeOffset`. -/
def loopBodyRuns (render : Int → String) (buf : Buffer) (usedSize : Nat) : Nat → Nat → Nat
  | 0, _ => 0
  | fuel + 1, attributeOffset =>
    if attributeOffset < usedSize then
      match (attributeStep render buf usedSize attributeOffset).next with
      | Next.goto next => 1 + loopBodyRuns render buf usedSize fuel next
      | _ => 1
    else 0

/-! ## The record scan of ReadAndParseMFT -/

/-- The constant `recordSize`. -/
def recordSize : Nat := 1024

/-- The constant `numRecordsToRead`. -/
def numRecordsToRead : Nat := 50

/-- Line 150: `recordSize / sectorSize` in `DWORD` arithmetic; a division by
zero has no value. -/
def sectorsPerRecord (sectorSize : Nat) : Option Nat :=
  if sectorSize = 0 then none else some (u32 (recordSize / sectorSize))

/-- Line 152: the size of the read buffer,
`sectorSize * sectorsPerRecord * numRecordsToRead` in `DWORD` arithmetic. -/
def mftBufferSize (sectorSize : Nat) : Option Nat :=
  (sectorsPerRecord sectorSize).map
    (fun perRecord => u32 (u32 (sectorSize * perRecord) * numRecordsToRead))

/-- Line 156: the copy `recordBuffer` of the bytes
`[i * recordSize, (i + 1) * recordSize)` of the read buffer; `none` when the
range is not inside it. -/
def recordBuffer (buffer : Buffer) (i : Nat) : Option Buffer :=
  if (i + 1) * recordSize ≤ buffer.length then
    some ((buffer.drop (i * recordSize)).take recordSize)
  else none

/-- Whether a call of `ParseAndPrintMFTRecord` returns to its caller within the
loop tests it was given: it does after an invalid signature and after the
attribute loop is left; it does not while the loop is still running, and the
model does not follow the program past an access outside a vector. -/
def ParseResult.returns : ParseResult → Bool
  | ParseResult.invalidSignature _ => true
  | ParseResult.record _ w =>
    match w.stop with
    | Stop.finished _ => true
    | _ => false
  | ParseResult.fault _ => false

/-- Lines 155-163: the records `i, i + 1, ...` (`count` of them) are copied out
and parsed one after the other, each call being allowed `fuel` loop tests; the
list holds the calls made, and it ends with the first call that does not
return. -/
def scanFrom (render : Int → String) (fuel : Nat) (buffer : Buffer) : Nat → Nat →
    List ParseResult
  | 0, _ => []
  | count + 1, i =>
    match recordBuffer buffer i with
    | none => [ParseResult.fault ⟨i * recordSize, recordSize⟩]
    | some record =>
      if (ParseAndPrintMFTRecord render fuel record).returns then
        ParseAndPrintMFTRecord render fuel record ::
          scanFrom render fuel buffer count (i + 1)
      else [ParseAndPrintMFTRecord render fuel record]

/-- The loop `for (int i = 0; i < numRecordsToRead; ++i)` over the read
buffer. -/
def scanRecords (render : Int → String) (fuel : Nat) (buffer : Buffer) : List ParseResult :=
  scanFrom render fuel buffer numRecordsToRead 0

/-- A read buffer of 50 records: record 0 is `zeroLengthRecord`, the other 49
are copies of `exampleRecord`. -/
def scanBufferZeroLengthFirst : Buffer :=
  zeroLengthRecord ++ (List.replicate 49 exampleRecord).flatten

/-! ## Basic facts about accesses -/

theorem leValue_lt (bs : List Byte) : leValue bs < 256 ^ bs.length := by
  induction bs with
  | nil => simp [leValue]
  | cons b bs ih =>
    have hb := b.isLt
    simp only [leValue, List.length_cons, pow_succ]
    omega

theorem fetch_lt (buf : Buffer) (a : Access) : fetch buf a < 256 ^ a.width := by
  unfold fetch
  have h1 := leValue_lt ((buf.drop a.index).take a.width)
  have h2 : ((buf.drop a.index).take a.width).length ≤ a.width := by
    simp [List.length_take]
  exact lt_of_lt_of_le h1 (Nat.pow_le_pow_right (by norm_num) h2)

theorem inBounds_iff (buf : Buffer) (a : Access) :
    inBounds buf a = true ↔ a.index + a.width ≤ buf.length := by
  simp [inBounds]

theorem readLE_eq_some (buf : Buffer) (index width : Nat) (h : index + width ≤ buf.length) :
    readLE buf index width = some (fetch buf ⟨index, width⟩) := by
  simp [readLE, inBounds, h]

theorem length_poke (buf : Buffer) (index : Nat) (bytes : List Byte)
    (h : index + bytes.length ≤ buf.length) : (poke buf index bytes).length = buf.length := by
  simp only [poke, List.length_append, List.length_take, List.length_drop]
  omega

theorem getElem?_poke (buf : Buffer) (index : Nat) (bytes : List Byte)
    (h : index + bytes.length ≤ buf.length) (n : Nat) :
    (poke buf index bytes)[n]? =
      if index ≤ n ∧ n < index + bytes.length then bytes[n - index]? else buf[n]? := by
  have hlen : (buf.take index).length = index := by
    simp only [List.length_take]; omega
  unfold poke
  by_cases h1 : n < index
  · have hn : ¬ (index ≤ n ∧ n < index + bytes.length) := by omega
    rw [if_neg hn, List.append_assoc, List.getElem?_append_left (by omega)]
    simp [List.getElem?_take, h1]
  · by_cases h2 : n < index + bytes.length
    · have hn : index ≤ n ∧ n < index + bytes.length := by omega
      rw [if_pos hn, List.append_assoc, List.getElem?_append_right (by omega), hlen,
        List.getElem?_append_left (by omega)]
    · have hn : ¬ (index ≤ n ∧ n < index + bytes.length) := by omega
      rw [if_neg hn, List.getElem?_append_right (by simp only [List.length_append]; omega)]
      simp only [List.length_append, hlen, List.getElem?_drop]
      congr 1
      omega

theorem fetch_poke_disjoint (buf : Buffer) (index : Nat) (bytes : List Byte)
    (h : index + bytes.length ≤ buf.length) (a : Access)
    (hd : a.index + a.width ≤ index ∨ index + bytes.length ≤ a.index) :
    fetch (poke buf index bytes) a = fetch buf a := by
  unfold fetch
  congr 1
  apply List.ext_getElem?
  intro n
  simp only [List.getElem?_take, List.getElem?_drop]
  by_cases hn : n < a.width
  · simp only [hn, if_true]
    rw [getElem?_poke buf index bytes h]
    have : ¬ (index ≤ a.index + n ∧ a.index + n < index + bytes.length) := by omega
    rw [if_neg this]
  · simp [hn]

/-! ## C1: the boot sector decoding -/

/-- C1 (as stated, refuted): on a 512-byte boot sector that declares one sector
per cluster and MFT start cluster 4, the decoding reports start sector 32 and
cluster size 4096, not 4 * 1 and 512 * 1. -/
theorem decodeBootSector_not_scaled_by_sectorsPerCluster :
    ∃ info, sectorsPerCluster bootSectorOnePerCluster = some 1 ∧
      decodeBootSector bootSectorOnePerCluster = some info ∧
      info.sectorSize = 512 ∧ info.mftStartCluster = 4 ∧
      info.mftStartLcn = 32 ∧ info.mftStartLcn ≠ info.mftStartCluster * 1 ∧
      info.clusterSize = 4096 ∧ info.clusterSize ≠ info.sectorSize * 1 := by
  refine ⟨⟨512, 4, 4096, 32⟩, ?_, ?_, rfl, rfl, rfl, by decide, rfl, by decide⟩
  · decide
  · decide

/-- C1 (amended): for every boot sector holding the fields (at least 0x38
bytes), the decoding reports the cluster size `sectorSize * 8` and the MFT start
sector `mftStartCluster * 8` (modulo `2^64`), where `sectorSize` is the
little-endian u16 at 0x0B and `mftStartCluster` the little-endian u64 at 0x30;
the result is the same whatever byte stands at offset 0x0D. -/
theorem decodeBootSector_multiplies_by_eight (bootSector : Buffer)
    (h : 0x38 ≤ bootSector.length) :
    ∃ info, decodeBootSector bootSector = some info ∧
      info.sectorSize = fetch bootSector ⟨0x0B, 2⟩ ∧
      info.mftStartCluster = fetch bootSector ⟨0x30, 8⟩ ∧
      info.clusterSize = info.sectorSize * 8 ∧
      info.mftStartLcn = (info.mftStartCluster * 8) % 2 ^ 64 ∧
      ∀ k : Byte, decodeBootSector (poke bootSector 0x0D [k]) = some info := by
  have hs := fetch_lt bootSector ⟨0x0B, 2⟩
  have h1 : readLE bootSector 0x0B 2 = some (fetch bootSector ⟨0x0B, 2⟩) :=
    readLE_eq_some _ _ _ (by omega)
  have h2 : readLE bootSector 0x30 8 = some (fetch bootSector ⟨0x30, 8⟩) :=
    readLE_eq_some _ _ _ (by omega)
  have hdec : decodeBootSector bootSector = some
      { sectorSize := fetch bootSector ⟨0x0B, 2⟩
        mftStartCluster := fetch bootSector ⟨0x30, 8⟩
        clusterSize := u32 (fetch bootSector ⟨0x0B, 2⟩ * 8)
        mftStartLcn := u64 (fetch bootSector ⟨0x30, 8⟩ * 8) } := by
    simp only [decodeBootSector, h1, h2]
  refine ⟨_, hdec, rfl, rfl, ?_, rfl, ?_⟩
  · show u32 (fetch bootSector ⟨0x0B, 2⟩ * 8) = fetch bootSector ⟨0x0B, 2⟩ * 8
    unfold u32
    simp only [Access.width] at hs
    omega
  · intro k
    have hp : 0x0D + [k].length ≤ bootSector.length := by simp only [List.length_singleton]; omega
    have hl := length_poke bootSector 0x0D [k] hp
    have f1 := fetch_poke_disjoint bootSector 0x0D [k] hp ⟨0x0B, 2⟩ (Or.inl (by simp))
    have f2 := fetch_poke_disjoint bootSector 0x0D [k] hp ⟨0x30, 8⟩ (Or.inr (by simp))
    have g1 : readLE (poke bootSector 0x0D [k]) 0x0B 2 = some (fetch bootSector ⟨0x0B, 2⟩) := by
      rw [readLE_eq_some _ _ _ (by omega), f1]
    have g2 : readLE (poke bootSector 0x0D [k]) 0x30 8 = some (fetch bootSector ⟨0x30, 8⟩) := by
      rw [readLE_eq_some _ _ _ (by omega), f2]
    simp only [decodeBootSector, g1, g2]

/-- C1 (amended), instance: the boot sector with one sector per cluster. -/
theorem decodeBootSector_multiplies_by_eight_witness :
    0x38 ≤ bootSectorOnePerCluster.length ∧
    ∃ info, decodeBootSector bootSectorOnePerCluster = some info ∧
      info.sectorSize = fetch bootSectorOnePerCluster ⟨0x0B, 2⟩ ∧
      info.mftStartCluster = fetch bootSectorOnePerCluster ⟨0x30, 8⟩ ∧
      info.clusterSize = info.sectorSize * 8 ∧
      info.mftStartLcn = (info.mftStartCluster * 8) % 2 ^ 64 ∧
      ∀ k : Byte, decodeBootSector (poke bootSectorOnePerCluster 0x0D [k]) = some info :=
  ⟨by decide, decodeBootSector_multiplies_by_eight bootSectorOnePerCluster (by decide)⟩

/-! ## C9, C10: FileTimeToString -/

theorem secondsMinusEpoch_of_lt (t : Nat) (h : t / 10000000 < 11644473600) :
    secondsMinusEpoch t = 2 ^ 64 + t / 10000000 - 11644473600 := by
  unfold secondsMinusEpoch u64 EPOCH_DIFFERENCE
  norm_num
  omega

/-- C10 (as stated, refuted): for the timestamp 0 (the year 1601) the subtraction
is carried out in unsigned 64-bit arithmetic and wraps to
`2^64 - 11644473600 = 18446744062065078016`; it becomes the `time_t` value
-11644473600, which is handed to the rendering, and a string is returned. -/
theorem FileTimeToString_wraps_before_epoch :
    (0 : Nat) / 10000000 < 11644473600 ∧
    secondsMinusEpoch 0 = 18446744062065078016 ∧
    secondsMinusEpoch 0 = 2 ^ 64 - 11644473600 ∧
    unixTime 0 = -11644473600 ∧
    ∀ render : Int → String, FileTimeToString render 0 = render (-11644473600) := by
  refine ⟨by norm_num, by decide, by decide, by decide, ?_⟩
  intro render
  have : unixTime 0 = -11644473600 := by decide
  unfold FileTimeToString
  rw [this]

/-- C10 (amended): for every timestamp `t` with `floor(t / 10000000)` below
11644473600 the conversion does not fail: the unsigned subtraction wraps to
`2^64 + floor(t / 10000000) - 11644473600`, the cast to `time_t` turns that into
the negative number `floor(t / 10000000) - 11644473600`, and the returned
string is the runtime's rendering of that value. -/
theorem FileTimeToString_before_epoch (render : Int → String) (t : Nat)
    (h : t / 10000000 < 11644473600) :
    secondsMinusEpoch t = 2 ^ 64 + t / 10000000 - 11644473600 ∧
    unixTime t = ((t / 10000000 : Nat) : Int) - 11644473600 ∧
    unixTime t < 0 ∧
    FileTimeToString render t = render (((t / 10000000 : Nat) : Int) - 11644473600) := by
  have h1 := secondsMinusEpoch_of_lt t h
  have hu : unixTime t = ((t / 10000000 : Nat) : Int) - 11644473600 := by
    unfold unixTime toTimeT
    rw [h1]
    have hge : ¬ (2 ^ 64 + t / 10000000 - 11644473600 < 2 ^ 63) := by norm_num; omega
    rw [if_neg hge]
    have : (2 : Nat) ^ 64 = 18446744073709551616 := by norm_num
    have h2 : (2 : Int) ^ 64 = 18446744073709551616 := by norm_num
    rw [this, h2]
    omega
  refine ⟨h1, hu, ?_, ?_⟩
  · rw [hu]; omega
  · unfold FileTimeToString
    rw [hu]

/-- C10 (amended), instance: the timestamp 0. -/
theorem FileTimeToString_before_epoch_witness :
    secondsMinusEpoch 0 = 2 ^ 64 + 0 / 10000000 - 11644473600 ∧
    unixTime 0 = ((0 / 10000000 : Nat) : Int) - 11644473600 ∧
    unixTime 0 < 0 ∧
    FileTimeToString utcRender 0 = utcRender (((0 / 10000000 : Nat) : Int) - 11644473600) :=
  FileTimeToString_before_epoch utcRender 0 (by decide)

/-! ## Single passes of the attribute loop -/

theorem u32_of_lt {n : Nat} (h : n < 2 ^ 32) : u32 n = n := by
  unfold u32
  exact Nat.mod_eq_of_lt h

theorem attributeStep_bound (render : Int → String) (buf : Buffer) (usedSize c : Nat)
    (h : usedSize ≤ c) : attributeStep render buf usedSize c = ⟨[], none, Next.leave⟩ := by
  unfold attributeStep
  rw [if_neg (by omega)]

theorem attributeStep_terminator (render : Int → String) (buf : Buffer) (usedSize c : Nat)
    (hc : c < usedSize) (hb : c + 4 ≤ buf.length) (ht : fetch buf ⟨c, 4⟩ = 0xFFFFFFFF) :
    attributeStep render buf usedSize c = ⟨[⟨c, 4⟩], none, Next.leave⟩ := by
  have hin : inBounds buf ⟨c, 4⟩ = true := (inBounds_iff _ _).2 hb
  unfold attributeStep
  simp only [hc, hin, ht, if_true]

theorem standardInformationBlock_inside (render : Int → String) (buf : Buffer) (c : Nat)
    (hb : c + 56 ≤ buf.length) (h32 : c + 56 ≤ 2 ^ 32) :
    standardInformationBlock render buf c =
      ⟨[⟨c + 24, 8⟩, ⟨c + 32, 8⟩, ⟨c + 40, 8⟩, ⟨c + 48, 8⟩],
       [Decoded.standardInformation
          (FileTimeToString render (fetch buf ⟨c + 24, 8⟩))
          (FileTimeToString render (fetch buf ⟨c + 32, 8⟩))
          (FileTimeToString render (fetch buf ⟨c + 40, 8⟩))
          (FileTimeToString render (fetch buf ⟨c + 48, 8⟩))],
       none⟩ := by
  have e1 : u32 (c + 24) = c + 24 := u32_of_lt (by omega)
  have e2 : u32 (c + 32) = c + 32 := u32_of_lt (by omega)
  have e3 : u32 (c + 40) = c + 40 := u32_of_lt (by omega)
  have e4 : u32 (c + 48) = c + 48 := u32_of_lt (by omega)
  have i1 : inBounds buf ⟨c + 24, 8⟩ = true := (inBounds_iff _ _).2 (by simp only; omega)
  have i2 : inBounds buf ⟨c + 32, 8⟩ = true := (inBounds_iff _ _).2 (by simp only; omega)
  have i3 : inBounds buf ⟨c + 40, 8⟩ = true := (inBounds_iff _ _).2 (by simp only; omega)
  have i4 : inBounds buf ⟨c + 48, 8⟩ = true := (inBounds_iff _ _).2 (by simp only; omega)
  unfold standardInformationBlock standardInformationAccesses
  simp only [e1, e2, e3, e4, firstOutside, i1, i2, i3, i4, if_true]

theorem attributeStep_standardInformation (render : Int → String) (buf : Buffer)
    (usedSize c : Nat) (hc : c < usedSize) (hb : c + 56 ≤ buf.length) (h32 : c + 56 ≤ 2 ^ 32)
    (h10 : fetch buf ⟨c, 4⟩ = 0x10) :
    attributeStep render buf usedSize c =
      ⟨[⟨c, 4⟩, ⟨c + 4, 4⟩, ⟨c + 24, 8⟩, ⟨c + 32, 8⟩, ⟨c + 40, 8⟩, ⟨c + 48, 8⟩],
       some ⟨c, 0x10, fetch buf ⟨c + 4, 4⟩,
         [Decoded.standardInformation
            (FileTimeToString render (fetch buf ⟨c + 24, 8⟩))
            (FileTimeToString render (fetch buf ⟨c + 32, 8⟩))
            (FileTimeToString render (fetch buf ⟨c + 40, 8⟩))
            (FileTimeToString render (fetch buf ⟨c + 48, 8⟩))]⟩,
       Next.goto (u32 (c + fetch buf ⟨c + 4, 4⟩))⟩ := by
  have hin : inBounds buf ⟨c, 4⟩ = true := (inBounds_iff _ _).2 (by simp only; omega)
  have hin2 : inBounds buf ⟨c + 4, 4⟩ = true := (inBounds_iff _ _).2 (by simp only; omega)
  have e4 : u32 (c + 4) = c + 4 := u32_of_lt (by omega)
  unfold attributeStep
  simp only [hc, hin, h10, e4, hin2, standardInformationBlock_inside render buf c hb h32,
    if_true, Block.skip]
  simp

theorem fileNameBlock_inside (buf : Buffer) (c : Nat)
    (hb : c + 90 + 2 * fetch buf ⟨c + 88, 1⟩ ≤ buf.length) (h32 : c + 90 < 2 ^ 32) :
    fileNameBlock buf c =
      ⟨[⟨c + 88, 1⟩, ⟨c + 90, 2 * fetch buf ⟨c + 88, 1⟩⟩],
       [Decoded.fileName
          (wcharUnits ((buf.drop (c + 90)).take (2 * fetch buf ⟨c + 88, 1⟩)))],
       none⟩ := by
  have e1 : u32 (c + 88) = c + 88 := u32_of_lt (by omega)
  have e2 : u32 (c + 90) = c + 90 := u32_of_lt h32
  have i1 : inBounds buf ⟨c + 88, 1⟩ = true := (inBounds_iff _ _).2 (by simp only; omega)
  have i2 : inBounds buf ⟨c + 90, 2 * fetch buf ⟨c + 88, 1⟩⟩ = true :=
    (inBounds_iff _ _).2 (by simp only; omega)
  unfold fileNameBlock
  simp only [e1, e2, i1, i2, if_true]

theorem attributeStep_fileName (render : Int → String) (buf : Buffer)
    (usedSize c : Nat) (hc : c < usedSize)
    (hb : c + 90 + 2 * fetch buf ⟨c + 88, 1⟩ ≤ buf.length) (h32 : c + 90 < 2 ^ 32)
    (h30 : fetch buf ⟨c, 4⟩ = 0x30) :
    attributeStep render buf usedSize c =
      ⟨[⟨c, 4⟩, ⟨c + 4, 4⟩, ⟨c + 88, 1⟩, ⟨c + 90, 2 * fetch buf ⟨c + 88, 1⟩⟩],
       some ⟨c, 0x30, fetch buf ⟨c + 4, 4⟩,
         [Decoded.fileName
            (wcharUnits ((buf.drop (c + 90)).take (2 * fetch buf ⟨c + 88, 1⟩)))]⟩,
       Next.goto (u32 (c + fetch buf ⟨c + 4, 4⟩))⟩ := by
  have hin : inBounds buf ⟨c, 4⟩ = true := (inBounds_iff _ _).2 (by simp only; omega)
  have hin2 : inBounds buf ⟨c + 4, 4⟩ = true := (inBounds_iff _ _).2 (by simp only; omega)
  have e4 : u32 (c + 4) = c + 4 := u32_of_lt (by omega)
  unfold attributeStep
  simp only [hc, hin, h30, e4, hin2, fileNameBlock_inside buf c hb h32, if_true, Block.skip]
  simp

/-! ## Unfolding the loop -/

theorem walk_zero (render : Int → String) (buf : Buffer) (usedSize c : Nat) :
    walk render buf usedSize 0 c = ⟨[], [], Stop.outOfFuel c⟩ := rfl

theorem walk_leave (render : Int → String) (buf : Buffer) (usedSize fuel c : Nat)
    (accesses : List Access) (visit : Option Visit)
    (h : attributeStep render buf usedSize c = ⟨accesses, visit, Next.leave⟩) :
    walk render buf usedSize (fuel + 1) c = ⟨[], accesses, Stop.finished c⟩ := by
  simp only [walk, h]

theorem walk_fault (render : Int → String) (buf : Buffer) (usedSize fuel c : Nat)
    (accesses : List Access) (visit : Option Visit) (a : Access)
    (h : attributeStep render buf usedSize c = ⟨accesses, visit, Next.fault a⟩) :
    walk render buf usedSize (fuel + 1) c = ⟨[], accesses, Stop.fault a⟩ := by
  simp only [walk, h]

theorem walk_goto (render : Int → String) (buf : Buffer) (usedSize fuel c : Nat)
    (accesses : List Access) (visit : Option Visit) (next : Nat)
    (h : attributeStep render buf usedSize c = ⟨accesses, visit, Next.goto next⟩) :
    walk render buf usedSize (fuel + 1) c =
      ⟨visit.toList ++ (walk render buf usedSize fuel next).visits,
       accesses ++ (walk render buf usedSize fuel next).accesses,
       (walk render buf usedSize fuel next).stop⟩ := by
  simp only [walk, h]

theorem walk_stuck (render : Int → String) (buf : Buffer) (usedSize c : Nat)
    (accesses : List Access) (visit : Option Visit)
    (h : attributeStep render buf usedSize c = ⟨accesses, visit, Next.goto c⟩) (fuel : Nat) :
    (walk render buf usedSize fuel c).stop = Stop.outOfFuel c := by
  induction fuel with
  | zero => rfl
  | succ n ih => rw [walk_goto render buf usedSize n c accesses visit c h]; exact ih

/-! ## The record as a whole -/

theorem firstOutside_header (buf : Buffer) (h : 42 ≤ buf.length) :
    firstOutside buf headerAccesses = none := by
  have i : ∀ a : Access, a.index + a.width ≤ 42 → inBounds buf a = true := by
    intro a ha
    exact (inBounds_iff _ _).2 (by omega)
  simp only [headerAccesses, firstOutside]
  rw [i ⟨4, 2⟩ (by simp), i ⟨6, 2⟩ (by simp), i ⟨8, 8⟩ (by simp), i ⟨16, 2⟩ (by simp),
    i ⟨18, 2⟩ (by simp), i ⟨20, 2⟩ (by simp), i ⟨22, 2⟩ (by simp), i ⟨24, 4⟩ (by simp),
    i ⟨28, 4⟩ (by simp), i ⟨32, 8⟩ (by simp), i ⟨40, 2⟩ (by simp)]
  simp

theorem ParseAndPrintMFTRecord_file (render : Int → String) (fuel : Nat) (buf : Buffer)
    (hsig : buf.take 4 = fileSignature) (hlen : 42 ≤ buf.length) :
    ParseAndPrintMFTRecord render fuel buf =
      ParseResult.record (decodeHeader buf)
        (walk render buf (fetch buf ⟨24, 4⟩) fuel (fetch buf ⟨20, 2⟩)) := by
  have hin : inBounds buf ⟨0, 4⟩ = true := (inBounds_iff _ _).2 (by simp only; omega)
  unfold ParseAndPrintMFTRecord
  simp only [hin, hsig, firstOutside_header buf hlen, if_true]
  rfl

/-! ## C2: a zero length field -/

/-- C2 (the code at the failing input): on the 1024-byte record with signature
"FILE", used size 1024 and a type-0x10 attribute of length 0 at offset 56, the
attribute loop is still at offset 56 after any number of iterations: no
iteration budget lets it end. -/
theorem ParseAndPrintMFTRecord_zero_length_never_ends (render : Int → String) (fuel : Nat) :
    (ParseAndPrintMFTRecord render fuel zeroLengthRecord).attributes.map (fun w => w.stop)
      = some (Stop.outOfFuel 56) := by
  have hsig : zeroLengthRecord.take 4 = fileSignature := by decide
  have hlen : zeroLengthRecord.length = 1024 := by decide
  have hfirst : fetch zeroLengthRecord ⟨20, 2⟩ = 56 := by decide
  have hused : fetch zeroLengthRecord ⟨24, 4⟩ = 1024 := by decide
  have hty : fetch zeroLengthRecord ⟨56, 4⟩ = 0x10 := by decide
  have hzero : fetch zeroLengthRecord ⟨56 + 4, 4⟩ = 0 := by decide
  have hstep := attributeStep_standardInformation render zeroLengthRecord 1024 56
    (by norm_num) (by rw [hlen]; norm_num) (by norm_num) hty
  rw [hzero] at hstep
  have h56 : u32 (56 + 0) = 56 := by decide
  rw [h56] at hstep
  rw [ParseAndPrintMFTRecord_file render fuel zeroLengthRecord hsig (by rw [hlen]; norm_num),
    hfirst, hused]
  simp only [ParseResult.attributes, Option.map_some']
  rw [walk_stuck render zeroLengthRecord 1024 56 _ _ hstep fuel]

/-! ## C6: a record without the signature -/

/-- C6: for every record buffer (of at least 4 bytes) whose first 4 bytes are
not "FILE", `ParseAndPrintMFTRecord` only reports the invalid signature: no
header is decoded and the attribute loop is not entered. -/
theorem ParseAndPrintMFTRecord_bad_signature (render : Int → String) (fuel : Nat)
    (buf : Buffer) (hlen : 4 ≤ buf.length) (hsig : buf.take 4 ≠ fileSignature) :
    ParseAndPrintMFTRecord render fuel buf = ParseResult.invalidSignature (buf.take 4) ∧
    (ParseAndPrintMFTRecord render fuel buf).header = none ∧
    (ParseAndPrintMFTRecord render fuel buf).attributes = none := by
  have hin : inBounds buf ⟨0, 4⟩ = true := (inBounds_iff _ _).2 (by simp only; omega)
  have h : ParseAndPrintMFTRecord render fuel buf
      = ParseResult.invalidSignature (buf.take 4) := by
    unfold ParseAndPrintMFTRecord
    simp only [hin, hsig, if_true, if_false]
  rw [h]
  exact ⟨rfl, rfl, rfl⟩

/-- C6, instance: a 1024-byte buffer of zeros, with enough loop budget for any
record. -/
theorem ParseAndPrintMFTRecord_bad_signature_witness :
    ParseAndPrintMFTRecord utcRender 1024 (zeros 1024)
      = ParseResult.invalidSignature ((zeros 1024).take 4) ∧
    (ParseAndPrintMFTRecord utcRender 1024 (zeros 1024)).header = none ∧
    (ParseAndPrintMFTRecord utcRender 1024 (zeros 1024)).attributes = none :=
  ParseAndPrintMFTRecord_bad_signature utcRender 1024 (zeros 1024) (by decide) (by decide)

/-! ## C8: one $STANDARD_INFORMATION attribute -/

/-- C8: for every record buffer with signature "FILE" and first attribute offset
56 that holds, inside its used area, an attribute of type 0x10 and length 96 at
offset 56 followed by the terminator 0xFFFFFFFF at offset 152, the attribute
loop (given at least two loop tests) ends normally having decoded exactly one
attribute, whose four time strings are `FileTimeToString` of the little-endian
u64 values at offsets 24, 32, 40 and 48 from the attribute start. -/
theorem ParseAndPrintMFTRecord_single_standardInformation (render : Int → String)
    (fuel : Nat) (buf : Buffer) (hsig : buf.take 4 = fileSignature)
    (hbuf : 156 ≤ buf.length) (hfirst : fetch buf ⟨20, 2⟩ = 56)
    (hused : 56 < fetch buf ⟨24, 4⟩) (hty : fetch buf ⟨56, 4⟩ = 0x10)
    (hlength : fetch buf ⟨56 + 4, 4⟩ = 96) (hterm : fetch buf ⟨152, 4⟩ = 0xFFFFFFFF)
    (hfuel : 2 ≤ fuel) :
    (ParseAndPrintMFTRecord render fuel buf).attributes.map (fun w => w.visits) =
      some [⟨56, 0x10, 96,
        [Decoded.standardInformation
          (FileTimeToString render (fetch buf ⟨56 + 24, 8⟩))
          (FileTimeToString render (fetch buf ⟨56 + 32, 8⟩))
          (FileTimeToString render (fetch buf ⟨56 + 40, 8⟩))
          (FileTimeToString render (fetch buf ⟨56 + 48, 8⟩))]⟩] ∧
    (ParseAndPrintMFTRecord render fuel buf).attributes.map (fun w => w.stop) =
      some (Stop.finished 152) := by
  obtain ⟨n, rfl⟩ : ∃ n, fuel = n + 2 := ⟨fuel - 2, by omega⟩
  have hstep := attributeStep_standardInformation render buf (fetch buf ⟨24, 4⟩) 56
    hused (by omega) (by norm_num) hty
  rw [hlength] at hstep
  have h152 : u32 (56 + 96) = 152 := by decide
  rw [h152] at hstep
  have hrest : (walk render buf (fetch buf ⟨24, 4⟩) (n + 1) 152).visits = [] ∧
      (walk render buf (fetch buf ⟨24, 4⟩) (n + 1) 152).stop = Stop.finished 152 := by
    by_cases hu : 152 < fetch buf ⟨24, 4⟩
    · rw [walk_leave render buf _ n 152 _ _
        (attributeStep_terminator render buf _ 152 hu (by omega) hterm)]
      exact ⟨rfl, rfl⟩
    · rw [walk_leave render buf _ n 152 _ _
        (attributeStep_bound render buf _ 152 (by omega))]
      exact ⟨rfl, rfl⟩
  rw [ParseAndPrintMFTRecord_file render (n + 2) buf hsig (by omega), hfirst]
  simp only [ParseResult.attributes, Option.map_some']
  rw [walk_goto render buf _ (n + 1) 56 _ _ 152 hstep]
  simp [hrest.1, hrest.2, Option.toList]

/-- C8, instance: the example record, whose creation time is
132223104000000000. -/
theorem ParseAndPrintMFTRecord_single_standardInformation_witness :
    (ParseAndPrintMFTRecord utcRender 2 exampleRecord).attributes.map (fun w => w.visits) =
      some [⟨56, 0x10, 96,
        [Decoded.standardInformation
          (FileTimeToString utcRender (fetch exampleRecord ⟨56 + 24, 8⟩))
          (FileTimeToString utcRender (fetch exampleRecord ⟨56 + 32, 8⟩))
          (FileTimeToString utcRender (fetch exampleRecord ⟨56 + 40, 8⟩))
          (FileTimeToString utcRender (fetch exampleRecord ⟨56 + 48, 8⟩))]⟩] ∧
    (ParseAndPrintMFTRecord utcRender 2 exampleRecord).attributes.map (fun w => w.stop) =
      some (Stop.finished 152) :=
  ParseAndPrintMFTRecord_single_standardInformation utcRender 2 exampleRecord
    (by decide) (by decide) (by decide) (by decide) (by decide) (by decide) (by decide)
    (by decide)

/-! ## Successful reads and passes over other attribute types -/

theorem readLE_some_iff (buf : Buffer) (index width v : Nat) :
    readLE buf index width = some v ↔
      index + width ≤ buf.length ∧ fetch buf ⟨index, width⟩ = v := by
  unfold readLE
  by_cases h : inBounds buf ⟨index, width⟩ = true
  · have := (inBounds_iff buf ⟨index, width⟩).1 h
    simp only [h, if_true, Option.some.injEq]
    exact ⟨fun e => ⟨this, e⟩, fun e => e.2⟩
  · have hn : ¬ (index + width ≤ buf.length) := fun e => h ((inBounds_iff _ _).2 e)
    simp only [h]
    constructor
    · intro e; cases e
    · intro e; exact absurd e.1 hn

theorem attributeStep_other_wrapped (render : Int → String) (buf : Buffer) (usedSize c : Nat)
    (hc : c < usedSize) (hb : c + 4 ≤ buf.length) (hb2 : u32 (c + 4) + 4 ≤ buf.length)
    (ht : fetch buf ⟨c, 4⟩ ≠ 0xFFFFFFFF) (h10 : fetch buf ⟨c, 4⟩ ≠ 0x10)
    (h30 : fetch buf ⟨c, 4⟩ ≠ 0x30) :
    attributeStep render buf usedSize c =
      ⟨[⟨c, 4⟩, ⟨u32 (c + 4), 4⟩],
       some ⟨c, fetch buf ⟨c, 4⟩, fetch buf ⟨u32 (c + 4), 4⟩, []⟩,
       Next.goto (u32 (c + fetch buf ⟨u32 (c + 4), 4⟩))⟩ := by
  have hin : inBounds buf ⟨c, 4⟩ = true := (inBounds_iff _ _).2 hb
  have hin2 : inBounds buf ⟨u32 (c + 4), 4⟩ = true := (inBounds_iff _ _).2 hb2
  unfold attributeStep
  simp only [hc, hin, ht, h10, h30, hin2, if_true, if_false, Block.skip, List.append_nil]

/-! ## C3: where the loop reads -/

/-- C3 (as stated, refuted): on a 1024-byte record with `usedSize = 1024` and
`allocatedSize = 1024` whose type-0x30 attribute stands at offset 1008, the
loop reads the name length at index 1096, which is neither below
`allocatedSize` nor inside the buffer. -/
theorem shortFileNameRecord_reads_outside :
    shortFileNameRecord.length = 1024 ∧
    (ParseAndPrintMFTRecord utcRender 1024 shortFileNameRecord).header.map
      (fun h => (h.usedSize, h.allocatedSize)) = some (1024, 1024) ∧
    (ParseAndPrintMFTRecord utcRender 1024 shortFileNameRecord).attributes =
      some ⟨[], [⟨1008, 4⟩, ⟨1012, 4⟩, ⟨1096, 1⟩], Stop.fault ⟨1096, 1⟩⟩ ∧
    ¬ (1096 + 1 ≤ shortFileNameRecord.length) := by
  refine ⟨by decide, by decide, by decide, by decide⟩

/-! ## The first attribute of a record -/

theorem walk_first_standardInformation (render : Int → String) (buf : Buffer)
    (usedSize fuel c : Nat) (hc : c < usedSize) (hb : c + 56 ≤ buf.length)
    (h32 : c + 56 ≤ 2 ^ 32) (h10 : fetch buf ⟨c, 4⟩ = 0x10) :
    (walk render buf usedSize (fuel + 1) c).visits.head? =
      some ⟨c, 0x10, fetch buf ⟨c + 4, 4⟩,
        [Decoded.standardInformation
          (FileTimeToString render (fetch buf ⟨c + 24, 8⟩))
          (FileTimeToString render (fetch buf ⟨c + 32, 8⟩))
          (FileTimeToString render (fetch buf ⟨c + 40, 8⟩))
          (FileTimeToString render (fetch buf ⟨c + 48, 8⟩))]⟩ := by
  rw [walk_goto render buf usedSize fuel c _ _ _
    (attributeStep_standardInformation render buf usedSize c hc hb h32 h10)]
  simp [Option.toList]

theorem firstAttributeOffset_lt (buf : Buffer) : fetch buf ⟨20, 2⟩ < 2 ^ 16 := by
  have := fetch_lt buf ⟨20, 2⟩
  simpa using this

/-! ## C5: a used size beyond the buffer -/

/-- C5 (as stated, refuted): the 1024-byte record whose used-size field is 4096
is not rejected: its type-0x10 attribute at offset 56 is decoded and the loop
ends normally at the terminator. -/
theorem oversizedRecord_decoded :
    oversizedRecord.length = 1024 ∧
    fetch oversizedRecord ⟨24, 4⟩ = 4096 ∧
    (ParseAndPrintMFTRecord utcRender 2 oversizedRecord).attributes.map
        (fun w => (w.visits, w.stop)) =
      some ([⟨56, 0x10, 96,
        [Decoded.standardInformation "2020-01-01 00:00:00" "2020-01-02 00:00:00"
          "2020-01-03 00:00:00" "2020-01-04 00:00:00"]⟩], Stop.finished 152) := by
  refine ⟨by decide, by decide, by decide⟩

/-- C5 (amended): for every record buffer with signature "FILE" that holds the
header, whose `usedSize` is greater than the buffer length and which has a
type-0x10 attribute at `firstAttributeOffset` with its first 56 bytes inside
the buffer, the record is not rejected: the header is decoded, the attribute
loop runs with that `usedSize` as its bound, and the attribute is decoded. -/
theorem ParseAndPrintMFTRecord_oversized_usedSize (render : Int → String) (fuel : Nat)
    (buf : Buffer) (hsig : buf.take 4 = fileSignature) (hheader : 42 ≤ buf.length)
    (hover : buf.length < fetch buf ⟨24, 4⟩)
    (h10 : fetch buf ⟨fetch buf ⟨20, 2⟩, 4⟩ = 0x10)
    (hb : fetch buf ⟨20, 2⟩ + 56 ≤ buf.length) (hfuel : 0 < fuel) :
    ParseAndPrintMFTRecord render fuel buf =
      ParseResult.record (decodeHeader buf)
        (walk render buf (fetch buf ⟨24, 4⟩) fuel (fetch buf ⟨20, 2⟩)) ∧
    (ParseAndPrintMFTRecord render fuel buf).attributes.map (fun w => w.visits.head?) =
      some (some ⟨fetch buf ⟨20, 2⟩, 0x10, fetch buf ⟨fetch buf ⟨20, 2⟩ + 4, 4⟩,
        [Decoded.standardInformation
          (FileTimeToString render (fetch buf ⟨fetch buf ⟨20, 2⟩ + 24, 8⟩))
          (FileTimeToString render (fetch buf ⟨fetch buf ⟨20, 2⟩ + 32, 8⟩))
          (FileTimeToString render (fetch buf ⟨fetch buf ⟨20, 2⟩ + 40, 8⟩))
          (FileTimeToString render (fetch buf ⟨fetch buf ⟨20, 2⟩ + 48, 8⟩))]⟩) := by
  have hp := ParseAndPrintMFTRecord_file render fuel buf hsig hheader
  refine ⟨hp, ?_⟩
  obtain ⟨n, rfl⟩ : ∃ n, fuel = n + 1 := ⟨fuel - 1, by omega⟩
  have h16 := firstAttributeOffset_lt buf
  rw [hp]
  simp only [ParseResult.attributes, Option.map_some']
  rw [walk_first_standardInformation render buf _ n _ (by omega) hb
    (by norm_num at h16 ⊢; omega) h10]

/-- C5 (amended), instance: the record whose used-size field is 4096. -/
theorem ParseAndPrintMFTRecord_oversized_usedSize_witness :
    ParseAndPrintMFTRecord utcRender 2 oversizedRecord =
      ParseResult.record (decodeHeader oversizedRecord)
        (walk utcRender oversizedRecord (fetch oversizedRecord ⟨24, 4⟩) 2
          (fetch oversizedRecord ⟨20, 2⟩)) ∧
    (ParseAndPrintMFTRecord utcRender 2 oversizedRecord).attributes.map
        (fun w => w.visits.head?) =
      some (some ⟨fetch oversizedRecord ⟨20, 2⟩, 0x10,
        fetch oversizedRecord ⟨fetch oversizedRecord ⟨20, 2⟩ + 4, 4⟩,
        [Decoded.standardInformation
          (FileTimeToString utcRender
            (fetch oversizedRecord ⟨fetch oversizedRecord ⟨20, 2⟩ + 24, 8⟩))
          (FileTimeToString utcRender
            (fetch oversizedRecord ⟨fetch oversizedRecord ⟨20, 2⟩ + 32, 8⟩))
          (FileTimeToString utcRender
            (fetch oversizedRecord ⟨fetch oversizedRecord ⟨20, 2⟩ + 40, 8⟩))
          (FileTimeToString utcRender
            (fetch oversizedRecord ⟨fetch oversizedRecord ⟨20, 2⟩ + 48, 8⟩))]⟩) :=
  ParseAndPrintMFTRecord_oversized_usedSize utcRender 2 oversizedRecord (by decide)
    (by decide) (by decide) (by decide) (by decide) (by decide)

/-! ## C4: the update-sequence array -/

theorem length_leBytes (width value : Nat) : (leBytes width value).length = width := by
  induction width generalizing value with
  | zero => rfl
  | succ n ih => simp [leBytes, ih]

theorem take_poke (buf : Buffer) (index : Nat) (bytes : List Byte) (n : Nat)
    (hn : n ≤ index) (hi : index ≤ buf.length) :
    (poke buf index bytes).take n = buf.take n := by
  unfold poke
  rw [List.append_assoc,
    List.take_append_of_le_length (by simp only [List.length_take]; omega),
    List.take_take, Nat.min_eq_left hn]

/-- C4 (as stated, refuted): the record `fixupRecord` has `fixupEntryCount = 3`,
marker 0x01D5 and first saved word 0x01DA; the creation time of its type-0x10
attribute covers the last two bytes of the first sector.  The decoded creation
time is that of the raw bytes (top word 0x01D5, the marker), not that of the
saved word 0x01DA; and although the last two bytes of the second sector are not
the marker, the record is parsed to the end with nothing reported. -/
theorem fixupRecord_decoded_raw :
    fixupRecord.take 4 = fileSignature ∧
    (ParseAndPrintMFTRecord utcRender 1024 fixupRecord).header.map
      (fun h => (h.fixupOffset, h.fixupEntryCount)) = some (48, 3) ∧
    fetch fixupRecord ⟨48, 2⟩ = 0x01D5 ∧ fetch fixupRecord ⟨48 + 2, 2⟩ = 0x01DA ∧
    fetch fixupRecord ⟨510, 2⟩ = 0x01D5 ∧ fetch fixupRecord ⟨1022, 2⟩ ≠ 0x01D5 ∧
    (ParseAndPrintMFTRecord utcRender 1024 fixupRecord).attributes.map
        (fun w => (w.visits, w.stop)) =
      some ([⟨480, 0x10, 96,
        [Decoded.standardInformation (FileTimeToString utcRender (0x01D5 * 2 ^ 48))
          "2023-10-16 07:11:36" "2023-10-16 07:11:36" "2023-10-16 07:11:36"]⟩],
        Stop.finished 576) ∧
    FileTimeToString utcRender (0x01D5 * 2 ^ 48) = "2019-05-01 09:26:47" ∧
    FileTimeToString utcRender (0x01DA * 2 ^ 48) = "2023-10-16 07:11:36" := by
  refine ⟨by decide, by decide, by decide, by decide, by decide, by decide, by decide,
    by decide, by decide⟩

/-- C4 (amended): for every record buffer with signature "FILE" and
`fixupEntryCount` at least 2 that has a type-0x10 attribute at
`firstAttributeOffset` (at least 8, below `usedSize`, first 56 bytes inside the
buffer), no fixup is applied before attribute decoding: the four timestamps are
decoded from the bytes of the buffer as they are, and the decoded attribute is
the same whatever values are written into the `fixupOffset` and
`fixupEntryCount` fields. -/
theorem ParseAndPrintMFTRecord_ignores_fixups (render : Int → String) (fuel : Nat)
    (buf : Buffer) (hsig : buf.take 4 = fileSignature)
    (hfirst : 8 ≤ fetch buf ⟨20, 2⟩)
    (hused : fetch buf ⟨20, 2⟩ < fetch buf ⟨24, 4⟩)
    (hb : fetch buf ⟨20, 2⟩ + 56 ≤ buf.length)
    (h10 : fetch buf ⟨fetch buf ⟨20, 2⟩, 4⟩ = 0x10) (hfuel : 0 < fuel) :
    (ParseAndPrintMFTRecord render fuel buf).attributes.map (fun w => w.visits.head?) =
      some (some ⟨fetch buf ⟨20, 2⟩, 0x10, fetch buf ⟨fetch buf ⟨20, 2⟩ + 4, 4⟩,
        [Decoded.standardInformation
          (FileTimeToString render (fetch buf ⟨fetch buf ⟨20, 2⟩ + 24, 8⟩))
          (FileTimeToString render (fetch buf ⟨fetch buf ⟨20, 2⟩ + 32, 8⟩))
          (FileTimeToString render (fetch buf ⟨fetch buf ⟨20, 2⟩ + 40, 8⟩))
          (FileTimeToString render (fetch buf ⟨fetch buf ⟨20, 2⟩ + 48, 8⟩))]⟩) ∧
    ∀ fixupOffset fixupEntryCount : Nat,
      (ParseAndPrintMFTRecord render fuel
          (poke buf 4 (leBytes 2 fixupOffset ++ leBytes 2 fixupEntryCount))).attributes.map
        (fun w => w.visits.head?) =
      (ParseAndPrintMFTRecord render fuel buf).attributes.map (fun w => w.visits.head?) := by
  obtain ⟨n, rfl⟩ : ∃ n, fuel = n + 1 := ⟨fuel - 1, by omega⟩
  have h16 := firstAttributeOffset_lt buf
  have h32 : fetch buf ⟨20, 2⟩ + 56 ≤ 2 ^ 32 := by norm_num at h16 ⊢; omega
  have hraw : (ParseAndPrintMFTRecord render (n + 1) buf).attributes.map
        (fun w => w.visits.head?) =
      some (some ⟨fetch buf ⟨20, 2⟩, 0x10, fetch buf ⟨fetch buf ⟨20, 2⟩ + 4, 4⟩,
        [Decoded.standardInformation
          (FileTimeToString render (fetch buf ⟨fetch buf ⟨20, 2⟩ + 24, 8⟩))
          (FileTimeToString render (fetch buf ⟨fetch buf ⟨20, 2⟩ + 32, 8⟩))
          (FileTimeToString render (fetch buf ⟨fetch buf ⟨20, 2⟩ + 40, 8⟩))
          (FileTimeToString render (fetch buf ⟨fetch buf ⟨20, 2⟩ + 48, 8⟩))]⟩) := by
    rw [ParseAndPrintMFTRecord_file render (n + 1) buf hsig (by omega)]
    simp only [ParseResult.attributes, Option.map_some']
    rw [walk_first_standardInformation render buf _ n _ hused hb h32 h10]
  refine ⟨hraw, ?_⟩
  intro fo cnt
  rw [hraw]
  have hl4 : (leBytes 2 fo ++ leBytes 2 cnt).length = 4 := by
    simp [length_leBytes]
  have hp : 4 + (leBytes 2 fo ++ leBytes 2 cnt).length ≤ buf.length := by rw [hl4]; omega
  have hlen := length_poke buf 4 _ hp
  have keep : ∀ a : Access, 8 ≤ a.index →
      fetch (poke buf 4 (leBytes 2 fo ++ leBytes 2 cnt)) a = fetch buf a := by
    intro a ha
    exact fetch_poke_disjoint buf 4 _ hp a (Or.inr (by rw [hl4]; omega))
  have k20 := keep ⟨20, 2⟩ (by simp)
  have k24 := keep ⟨24, 4⟩ (by simp)
  rw [ParseAndPrintMFTRecord_file render (n + 1) _
    (by rw [take_poke buf 4 _ 4 (le_refl 4) (by omega)]; exact hsig) (by rw [hlen]; omega)]
  simp only [ParseResult.attributes, Option.map_some']
  rw [k20, k24, walk_first_standardInformation render _ _ n _ hused (by rw [hlen]; exact hb)
    h32 (by rw [keep _ (by simp only; omega)]; exact h10)]
  rw [keep _ (by simp only; omega), keep _ (by simp only; omega),
    keep _ (by simp only; omega), keep _ (by simp only; omega),
    keep _ (by simp only; omega)]

/-- C4 (amended), instance: the record `fixupRecord`. -/
theorem ParseAndPrintMFTRecord_ignores_fixups_witness :
    (ParseAndPrintMFTRecord utcRender 1024 fixupRecord).attributes.map
        (fun w => w.visits.head?) =
      some (some ⟨fetch fixupRecord ⟨20, 2⟩, 0x10,
        fetch fixupRecord ⟨fetch fixupRecord ⟨20, 2⟩ + 4, 4⟩,
        [Decoded.standardInformation
          (FileTimeToString utcRender (fetch fixupRecord ⟨fetch fixupRecord ⟨20, 2⟩ + 24, 8⟩))
          (FileTimeToString utcRender (fetch fixupRecord ⟨fetch fixupRecord ⟨20, 2⟩ + 32, 8⟩))
          (FileTimeToString utcRender (fetch fixupRecord ⟨fetch fixupRecord ⟨20, 2⟩ + 40, 8⟩))
          (FileTimeToString utcRender
            (fetch fixupRecord ⟨fetch fixupRecord ⟨20, 2⟩ + 48, 8⟩))]⟩) ∧
    ∀ fixupOffset fixupEntryCount : Nat,
      (ParseAndPrintMFTRecord utcRender 1024
          (poke fixupRecord 4 (leBytes 2 fixupOffset ++ leBytes 2 fixupEntryCount))).attributes.map
        (fun w => w.visits.head?) =
      (ParseAndPrintMFTRecord utcRender 1024 fixupRecord).attributes.map
        (fun w => w.visits.head?) :=
  ParseAndPrintMFTRecord_ignores_fixups utcRender 1024 fixupRecord (by decide) (by decide)
    (by decide) (by decide) (by decide) (by decide)

/-! ## Reads as little-endian values -/

theorem leValue_take_drop (buf : Buffer) (offset width : Nat)
    (h : offset + width ≤ buf.length) :
    leValue ((buf.drop offset).take width) = littleEndianAt buf offset width := by
  induction width generalizing offset with
  | zero => simp [leValue, littleEndianAt]
  | succ n ih =>
    have hlt : offset < buf.length := by omega
    rw [List.drop_eq_getElem_cons hlt, List.take_succ_cons]
    simp only [leValue, littleEndianAt]
    rw [ih (offset + 1) (by omega)]
    have : buf.getD offset 0 = buf[offset] := by
      simp [List.getD_eq_getElem?_getD, List.getElem?_eq_getElem hlt]
    rw [this]

theorem fetch_eq_littleEndianAt (buf : Buffer) (a : Access)
    (h : a.index + a.width ≤ buf.length) :
    fetch buf a = littleEndianAt buf a.index a.width :=
  leValue_take_drop buf a.index a.width h

theorem wcharUnits_take_drop (buf : Buffer) (offset n : Nat)
    (h : offset + 2 * n ≤ buf.length) :
    wcharUnits ((buf.drop offset).take (2 * n)) =
      (List.range n).map (fun i => littleEndianAt buf (offset + 2 * i) 2) := by
  induction n generalizing offset with
  | zero => simp [wcharUnits]
  | succ n ih =>
    have h0 : offset < buf.length := by omega
    have h1 : offset + 1 < buf.length := by omega
    have e : 2 * (n + 1) = (2 * n + 1) + 1 := by ring
    rw [e, List.drop_eq_getElem_cons h0, List.take_succ_cons,
      List.drop_eq_getElem_cons h1, List.take_succ_cons]
    simp only [wcharUnits]
    rw [ih (offset + 1 + 1) (by omega), List.range_succ_eq_map, List.map_cons, List.map_map]
    have g0 : buf.getD offset 0 = buf[offset] := by
      simp [List.getD_eq_getElem?_getD, List.getElem?_eq_getElem h0]
    have g1 : buf.getD (offset + 1) 0 = buf[offset + 1] := by
      simp [List.getD_eq_getElem?_getD, List.getElem?_eq_getElem h1]
    congr 1
    · simp only [littleEndianAt, Nat.mul_zero, Nat.add_zero, g0, g1]
    · apply List.map_congr_left
      intro i _
      simp only [Function.comp]
      congr 1
      omega

/-! ## C15: the header fields -/

/-- C15: for every record buffer of at least 42 bytes with signature "FILE",
the header decoded by `ParseAndPrintMFTRecord` consists of the little-endian
values at the fixed offsets: u16 at 4, 6, 16, 18, 20, 22 and 40, u32 at 24 and
28, u64 at 8 and 32. -/
theorem ParseAndPrintMFTRecord_header_fields (render : Int → String) (fuel : Nat)
    (buf : Buffer) (hsig : buf.take 4 = fileSignature) (hlen : 42 ≤ buf.length) :
    (ParseAndPrintMFTRecord render fuel buf).header = some
      { fixupOffset := littleEndianAt buf 4 2
        fixupEntryCount := littleEndianAt buf 6 2
        lsn := littleEndianAt buf 8 8
        sequenceNumber := littleEndianAt buf 16 2
        hardLinkCount := littleEndianAt buf 18 2
        firstAttributeOffset := littleEndianAt buf 20 2
        flags := littleEndianAt buf 22 2
        usedSize := littleEndianAt buf 24 4
        allocatedSize := littleEndianAt buf 28 4
        baseRecordReference := littleEndianAt buf 32 8
        nextAttributeID := littleEndianAt buf 40 2 } := by
  have f : ∀ a : Access, a.index + a.width ≤ 42 →
      fetch buf a = littleEndianAt buf a.index a.width := by
    intro a ha
    exact fetch_eq_littleEndianAt buf a (by omega)
  rw [ParseAndPrintMFTRecord_file render fuel buf hsig hlen]
  simp only [ParseResult.header, decodeHeader]
  rw [f ⟨4, 2⟩ (by simp), f ⟨6, 2⟩ (by simp), f ⟨8, 8⟩ (by simp), f ⟨16, 2⟩ (by simp),
    f ⟨18, 2⟩ (by simp), f ⟨20, 2⟩ (by simp), f ⟨22, 2⟩ (by simp), f ⟨24, 4⟩ (by simp),
    f ⟨28, 4⟩ (by simp), f ⟨32, 8⟩ (by simp), f ⟨40, 2⟩ (by simp)]

/-- C15, instance: the record `fixupRecord`, whose fixup offset is 48, fixup
entry count 3, first attribute offset 480 and used and allocated sizes 1024. -/
theorem ParseAndPrintMFTRecord_header_fields_witness :
    (ParseAndPrintMFTRecord utcRender 1024 fixupRecord).header = some
      { fixupOffset := littleEndianAt fixupRecord 4 2
        fixupEntryCount := littleEndianAt fixupRecord 6 2
        lsn := littleEndianAt fixupRecord 8 8
        sequenceNumber := littleEndianAt fixupRecord 16 2
        hardLinkCount := littleEndianAt fixupRecord 18 2
        firstAttributeOffset := littleEndianAt fixupRecord 20 2
        flags := littleEndianAt fixupRecord 22 2
        usedSize := littleEndianAt fixupRecord 24 4
        allocatedSize := littleEndianAt fixupRecord 28 4
        baseRecordReference := littleEndianAt fixupRecord 32 8
        nextAttributeID := littleEndianAt fixupRecord 40 2 } :=
  ParseAndPrintMFTRecord_header_fields utcRender 1024 fixupRecord (by decide) (by decide)

/-! ## C11: the file name -/

/-- C11: for every buffer shorter than `2^32` bytes holding, from offset `c`, a
$FILE_NAME attribute whose name-length byte at offset 88 is `n` and for which
at least `90 + 2 * n` bytes are available, the file-name decoding reads those
bytes only and yields a name of exactly `n` code units whose `i`-th unit is the
little-endian 16-bit value at offset `90 + 2 * i` of the attribute. -/
theorem fileNameBlock_decodes_name (buf : Buffer) (c n : Nat) (hsize : buf.length < 2 ^ 32)
    (hn : (buf.getD (c + 88) 0).val = n) (havail : c + (90 + 2 * n) ≤ buf.length) :
    ∃ name, fileNameBlock buf c =
        ⟨[⟨c + 88, 1⟩, ⟨c + 90, 2 * n⟩], [Decoded.fileName name], none⟩ ∧
      name.length = n ∧
      ∀ i, i < n → name[i]? = some (littleEndianAt buf (c + 90 + 2 * i) 2) := by
  have hf : fetch buf ⟨c + 88, 1⟩ = n := by
    rw [fetch_eq_littleEndianAt buf ⟨c + 88, 1⟩ (by simp only; omega)]
    simp only [littleEndianAt, hn]
    omega
  have hblock := fileNameBlock_inside buf c (by rw [hf]; omega) (by omega)
  rw [hf] at hblock
  rw [wcharUnits_take_drop buf (c + 90) n (by omega)] at hblock
  refine ⟨_, hblock, by simp, ?_⟩
  intro i hi
  simp [List.getElem?_map, List.getElem?_range hi]

/-- C11, instance: name length 5 with exactly 100 bytes. -/
theorem fileNameBlock_decodes_name_witness :
    ∃ name, fileNameBlock helloSlice 0 =
        ⟨[⟨0 + 88, 1⟩, ⟨0 + 90, 2 * 5⟩], [Decoded.fileName name], none⟩ ∧
      name.length = 5 ∧
      ∀ i, i < 5 → name[i]? = some (littleEndianAt helloSlice (0 + 90 + 2 * i) 2) :=
  fileNameBlock_decodes_name helloSlice 0 5 (by decide) (by decide) (by decide)

/-! ## A pass whose reads are inside the buffer -/

theorem attributeStep_inside (render : Int → String) (buf : Buffer) (usedSize c ty len : Nat)
    (hsize : buf.length < 2 ^ 32) (hc : c < usedSize)
    (hty : readLE buf c 4 = some ty) (hne : ty ≠ 0xFFFFFFFF)
    (hlen : readLE buf (u32 (c + 4)) 4 = some len)
    (h10 : ty = 0x10 → c + 56 ≤ buf.length)
    (h30 : ty = 0x30 → c + 90 + 2 * fetch buf ⟨c + 88, 1⟩ ≤ buf.length) :
    ∃ accesses, attributeStep render buf usedSize c =
      ⟨accesses, some (expectedVisit render buf ⟨c, ty, len⟩), Next.goto (u32 (c + len))⟩ := by
  obtain ⟨hb, hfty⟩ := (readLE_some_iff _ _ _ _).1 hty
  obtain ⟨hb2, hflen⟩ := (readLE_some_iff _ _ _ _).1 hlen
  by_cases e10 : ty = 0x10
  · have hin := h10 e10
    have e4 : u32 (c + 4) = c + 4 := u32_of_lt (by omega)
    rw [e4] at hflen
    have hstep := attributeStep_standardInformation render buf usedSize c hc hin
      (by omega) (by rw [hfty]; exact e10)
    rw [hflen] at hstep
    refine ⟨[⟨c, 4⟩, ⟨c + 4, 4⟩, ⟨c + 24, 8⟩, ⟨c + 32, 8⟩, ⟨c + 40, 8⟩, ⟨c + 48, 8⟩], ?_⟩
    rw [hstep]
    simp [expectedVisit, decodedFields, e10]
  · by_cases e30 : ty = 0x30
    · have hin := h30 e30
      have e4 : u32 (c + 4) = c + 4 := u32_of_lt (by omega)
      rw [e4] at hflen
      have hstep := attributeStep_fileName render buf usedSize c hc hin
        (by omega) (by rw [hfty]; exact e30)
      rw [hflen] at hstep
      refine ⟨[⟨c, 4⟩, ⟨c + 4, 4⟩, ⟨c + 88, 1⟩, ⟨c + 90, 2 * fetch buf ⟨c + 88, 1⟩⟩], ?_⟩
      rw [hstep]
      simp [expectedVisit, decodedFields, e30]
    · have hstep := attributeStep_other_wrapped render buf usedSize c hc hb hb2
        (by rw [hfty]; exact hne) (by rw [hfty]; exact e10) (by rw [hfty]; exact e30)
      rw [hflen, hfty] at hstep
      refine ⟨[⟨c, 4⟩, ⟨u32 (c + 4), 4⟩], ?_⟩
      rw [hstep]
      simp [expectedVisit, decodedFields, e10, e30]

/-! ## C12: a file name longer than its attribute -/

/-- C12 (as stated, refuted): in `shortNameRecord` the type-0x30 attribute at
offset 56 is 16 bytes long and ends where the used area ends, so fewer than
`90 + 2 * 2` bytes are available from its start; the decoding reports no
truncation but reads the name length at offset 144 and the name at offsets 146
to 149 and yields the two code units found there.  In `shortFileNameRecord`,
where the buffer itself ends 16 bytes after the attribute start, the decoding
reads index 1096, past the end of the buffer. -/
theorem shortNameRecord_name_decoded :
    fetch shortNameRecord ⟨56, 4⟩ = 0x30 ∧ fetch shortNameRecord ⟨56 + 4, 4⟩ = 16 ∧
    fetch shortNameRecord ⟨24, 4⟩ = 72 ∧ fetch shortNameRecord ⟨56 + 88, 1⟩ = 2 ∧
    (ParseAndPrintMFTRecord utcRender 2 shortNameRecord).attributes =
      some ⟨[⟨56, 0x30, 16, [Decoded.fileName [0x61, 0x62]]⟩],
        [⟨56, 4⟩, ⟨60, 4⟩, ⟨144, 1⟩, ⟨146, 4⟩], Stop.finished 72⟩ ∧
    shortFileNameRecord.length = 1008 + 16 ∧
    (ParseAndPrintMFTRecord utcRender 2 shortFileNameRecord).attributes.map
      (fun w => w.stop) = some (Stop.fault ⟨1096, 1⟩) := by
  refine ⟨by decide, by decide, by decide, by decide, by decide, by decide, by decide⟩

/-- C12 (amended): the file-name decoding makes no length test.  For every
buffer shorter than `2^32` bytes and every type-0x30 attribute at a cursor `c`
below `usedSize` whose name-length byte at offset 88 is `n`, whose length field
is below `90 + 2 * n`, and for which the buffer holds `90 + 2 * n` bytes from
`c` on, the pass of the loop decodes the `n` code units at offsets `90 + 2 * i`
as the name, although they lie beyond the attribute, and then adds the length
field to the cursor. -/
theorem attributeStep_fileName_beyond_length (render : Int → String) (buf : Buffer)
    (usedSize c n len : Nat) (hsize : buf.length < 2 ^ 32) (hc : c < usedSize)
    (h30 : fetch buf ⟨c, 4⟩ = 0x30) (hlen : fetch buf ⟨c + 4, 4⟩ = len)
    (hn : fetch buf ⟨c + 88, 1⟩ = n) (_hshort : len < 90 + 2 * n)
    (hbuf : c + (90 + 2 * n) ≤ buf.length) :
    attributeStep render buf usedSize c =
      ⟨[⟨c, 4⟩, ⟨c + 4, 4⟩, ⟨c + 88, 1⟩, ⟨c + 90, 2 * n⟩],
       some ⟨c, 0x30, len,
         [Decoded.fileName ((List.range n).map
            (fun i => littleEndianAt buf (c + 90 + 2 * i) 2))]⟩,
       Next.goto (u32 (c + len))⟩ := by
  have hstep := attributeStep_fileName render buf usedSize c hc (by rw [hn]; omega)
    (by omega) h30
  rw [hn, hlen, wcharUnits_take_drop buf (c + 90) n (by omega)] at hstep
  exact hstep

/-- C12 (amended), instance: the attribute of `shortNameRecord`. -/
theorem attributeStep_fileName_beyond_length_witness :
    attributeStep utcRender shortNameRecord 72 56 =
      ⟨[⟨56, 4⟩, ⟨56 + 4, 4⟩, ⟨56 + 88, 1⟩, ⟨56 + 90, 2 * 2⟩],
       some ⟨56, 0x30, 16,
         [Decoded.fileName ((List.range 2).map
            (fun i => littleEndianAt shortNameRecord (56 + 90 + 2 * i) 2))]⟩,
       Next.goto (u32 (56 + 16))⟩ :=
  attributeStep_fileName_beyond_length utcRender shortNameRecord 72 56 2 16 (by decide)
    (by decide) (by decide) (by decide) (by decide) (by decide) (by decide)

/-! ## C13: an attribute that ends beyond the used size -/

/-- C13 (as stated, refuted): in `overlongRecord` (used size 160) the attribute
at offset 56 has length 2000, so `cursor + length = 2056` is above the used
size; the attribute is decoded all the same, the cursor is advanced to 2056,
and the loop is then left normally. -/
theorem overlongRecord_decoded :
    fetch overlongRecord ⟨24, 4⟩ = 160 ∧ fetch overlongRecord ⟨56 + 4, 4⟩ = 2000 ∧
    (ParseAndPrintMFTRecord utcRender 2 overlongRecord).attributes.map
        (fun w => (w.visits, w.stop)) =
      some ([⟨56, 0x10, 2000,
        [Decoded.standardInformation "2020-01-01 00:00:00" "2020-01-02 00:00:00"
          "2020-01-03 00:00:00" "2020-01-04 00:00:00"]⟩], Stop.finished 2056) := by
  refine ⟨by decide, by decide, by decide⟩

/-- C13 (amended): the loop has no test of `cursor + length` against
`usedSize`.  For every buffer shorter than `2^32` bytes, once the loop is at a
cursor `c` below `usedSize` holding an attribute (type other than 0xFFFFFFFF)
with `usedSize < c + length < 2^32`, whose decoded fields lie inside the buffer
(56 bytes for type 0x10, `90 + 2 * nameLength` bytes for type 0x30), that
attribute is decoded like any other, the cursor is advanced to `c + length`,
beyond `usedSize`, and the loop is left normally at the next loop test. -/
theorem walk_overlong_attribute (render : Int → String) (buf : Buffer)
    (usedSize c ty len fuel : Nat) (hsize : buf.length < 2 ^ 32) (hc : c < usedSize)
    (hty : readLE buf c 4 = some ty) (hne : ty ≠ 0xFFFFFFFF)
    (hlen : readLE buf (u32 (c + 4)) 4 = some len)
    (hover : usedSize < c + len) (hwrap : c + len < 2 ^ 32)
    (h10 : ty = 0x10 → c + 56 ≤ buf.length)
    (h30 : ty = 0x30 → c + 90 + 2 * fetch buf ⟨c + 88, 1⟩ ≤ buf.length)
    (hfuel : 2 ≤ fuel) :
    (walk render buf usedSize fuel c).visits = [expectedVisit render buf ⟨c, ty, len⟩] ∧
    (walk render buf usedSize fuel c).stop = Stop.finished (c + len) := by
  obtain ⟨n, rfl⟩ : ∃ n, fuel = n + 2 := ⟨fuel - 2, by omega⟩
  obtain ⟨accesses, hstep⟩ := attributeStep_inside render buf usedSize c ty len hsize hc hty
    hne hlen h10 h30
  rw [u32_of_lt hwrap] at hstep
  rw [walk_goto render buf usedSize (n + 1) c _ _ _ hstep,
    walk_leave render buf usedSize n (c + len) _ _
      (attributeStep_bound render buf usedSize (c + len) (by omega))]
  simp [Option.toList]

/-- C13 (amended), instance: the attribute of `overlongRecord`. -/
theorem walk_overlong_attribute_witness :
    (walk utcRender overlongRecord 160 2 56).visits =
      [expectedVisit utcRender overlongRecord ⟨56, 0x10, 2000⟩] ∧
    (walk utcRender overlongRecord 160 2 56).stop = Stop.finished (56 + 2000) :=
  walk_overlong_attribute utcRender overlongRecord 160 56 0x10 2000 2 (by decide) (by decide)
    (by decide) (by decide) (by decide) (by decide) (by decide) (by decide) (by decide)
    (by decide)

/-! ## What a completed pass looks like -/

theorem attributeStep_goto (render : Int → String) (buf : Buffer) (usedSize c next : Nat)
    (accesses : List Access) (visit : Option Visit)
    (h : attributeStep render buf usedSize c = ⟨accesses, visit, Next.goto next⟩) :
    c < usedSize ∧ fetch buf ⟨c, 4⟩ ≠ 0xFFFFFFFF ∧
    next = u32 (c + fetch buf ⟨u32 (c + 4), 4⟩) ∧
    ∃ decoded, visit = some ⟨c, fetch buf ⟨c, 4⟩, fetch buf ⟨u32 (c + 4), 4⟩, decoded⟩ := by
  unfold attributeStep at h
  by_cases hc : c < usedSize
  · rw [if_pos hc] at h
    by_cases hin : inBounds buf ⟨c, 4⟩ = true
    · rw [if_pos hin] at h
      by_cases ht : fetch buf ⟨c, 4⟩ = 0xFFFFFFFF
      · simp only [ht, if_true] at h
        cases h
      · by_cases hin2 : inBounds buf ⟨u32 (c + 4), 4⟩ = true
        · simp only [ht, hin2, if_true, if_false] at h
          split at h
          · cases h
          · split at h
            · cases h
            · simp only [Iteration.mk.injEq, Next.goto.injEq] at h
              exact ⟨hc, ht, h.2.2.symm, _, h.2.1.symm⟩
        · simp only [ht, hin2, if_false] at h
          cases h
    · rw [if_neg hin] at h
      cases h
  · rw [if_neg hc] at h
    cases h

/-! ## Progress of the cursor -/

theorem walk_progress (render : Int → String) (buf : Buffer) (usedSize : Nat)
    (h32 : usedSize < 2 ^ 32) :
    ∀ fuel c,
      (∀ k, ∀ v ∈ (walk render buf usedSize k c).visits,
        1 ≤ v.length ∧ v.attributeOffset + v.length ≤ usedSize) →
      (∀ v ∈ (walk render buf usedSize fuel c).visits, c ≤ v.attributeOffset) ∧
      List.Pairwise (fun a b => a < b)
        ((walk render buf usedSize fuel c).visits.map (fun v => v.attributeOffset)) ∧
      (walk render buf usedSize fuel c).visits.length ≤ usedSize - c ∧
      loopBodyRuns render buf usedSize fuel c ≤ usedSize - c ∧
      (usedSize - c < fuel → ∀ e, (walk render buf usedSize fuel c).stop ≠ Stop.outOfFuel e) := by
  intro fuel
  induction fuel with
  | zero =>
    intro c _
    simp [walk_zero, loopBodyRuns]
  | succ n ih =>
    intro c hfit
    cases hstep : attributeStep render buf usedSize c with
    | mk accesses visit next =>
      cases next with
      | leave =>
        rw [walk_leave render buf usedSize n c accesses visit hstep]
        simp only [loopBodyRuns, hstep]
        refine ⟨by simp, by simp, by simp, ?_, by simp⟩
        split <;> omega
      | fault a =>
        rw [walk_fault render buf usedSize n c accesses visit a hstep]
        simp only [loopBodyRuns, hstep]
        refine ⟨by simp, by simp, by simp, ?_, by simp⟩
        split <;> omega
      | goto nx =>
        obtain ⟨hc, _, hnx, decoded, hvisit⟩ :=
          attributeStep_goto render buf usedSize c nx accesses visit hstep
        subst hvisit
        have hw : ∀ k, walk render buf usedSize (k + 1) c =
            ⟨[⟨c, fetch buf ⟨c, 4⟩, fetch buf ⟨u32 (c + 4), 4⟩, decoded⟩] ++
                (walk render buf usedSize k nx).visits,
              accesses ++ (walk render buf usedSize k nx).accesses,
              (walk render buf usedSize k nx).stop⟩ := by
          intro k
          rw [walk_goto render buf usedSize k c _ _ _ hstep]
          rfl
        have hv := hfit 1 ⟨c, fetch buf ⟨c, 4⟩, fetch buf ⟨u32 (c + 4), 4⟩, decoded⟩
          (by rw [hw 0]; simp)
        simp only at hv
        have hnx2 : nx = c + fetch buf ⟨u32 (c + 4), 4⟩ := by
          rw [hnx]; exact u32_of_lt (by omega)
        have hfit2 : ∀ k, ∀ v ∈ (walk render buf usedSize k nx).visits,
            1 ≤ v.length ∧ v.attributeOffset + v.length ≤ usedSize := by
          intro k v hvm
          exact hfit (k + 1) v (by rw [hw k]; simp [hvm])
        obtain ⟨i1, i2, i3, i4, i5⟩ := ih nx hfit2
        rw [hw n]
        simp only [loopBodyRuns, hstep, hc, if_true]
        refine ⟨?_, ?_, ?_, ?_, ?_⟩
        · intro v hvm
          simp only [List.singleton_append, List.mem_cons] at hvm
          rcases hvm with rfl | hvm
          · exact le_refl _
          · have := i1 v hvm
            omega
        · simp only [List.singleton_append, List.map_cons, List.pairwise_cons]
          refine ⟨?_, i2⟩
          intro o ho
          obtain ⟨v, hvm, rfl⟩ := List.mem_map.1 ho
          have := i1 v hvm
          omega
        · simp only [List.singleton_append, List.length_cons]
          omega
        · omega
        · intro hf e
          exact i5 (by omega) e

/-! ## C17: the 32-bit addition of the length -/

/-- C17 (as stated, refuted): in `wrappingRecord` no length field is 0, yet the
pass at cursor 72, whose length field is `2^32 - 16`, sets the cursor to 56,
below 72, and the loop visits the offsets 56 and 72 again and again. -/
theorem wrappingRecord_cursor_goes_back :
    fetch wrappingRecord ⟨56 + 4, 4⟩ = 16 ∧ fetch wrappingRecord ⟨72 + 4, 4⟩ = 2 ^ 32 - 16 ∧
    attributeStep utcRender wrappingRecord 1024 72 =
      ⟨[⟨72, 4⟩, ⟨76, 4⟩], some ⟨72, 0x80, 2 ^ 32 - 16, []⟩, Next.goto 56⟩ ∧
    (ParseAndPrintMFTRecord utcRender 6 wrappingRecord).attributes.map
        (fun w => (w.visits.map (fun v => v.attributeOffset), w.stop)) =
      some ([56, 72, 56, 72, 56, 72], Stop.outOfFuel 56) := by
  refine ⟨by decide, by decide, by decide, by decide⟩

/-- C17 (amended): for every record buffer and every completed pass of the loop
at a cursor `c` (a `DWORD`), the new cursor is `(c + length) mod 2^32`, where
`length` is the u32 read at `c + 4`; it is strictly greater than `c` exactly
when `length` is not 0 and `c + length < 2^32`, and it is strictly smaller than
`c` when `c + length ≥ 2^32`. -/
theorem attributeStep_progress_iff (render : Int → String) (buf : Buffer)
    (usedSize c next : Nat) (accesses : List Access) (v : Visit) (hc32 : c < 2 ^ 32)
    (h : attributeStep render buf usedSize c = ⟨accesses, some v, Next.goto next⟩) :
    v.attributeOffset = c ∧ v.length = fetch buf ⟨u32 (c + 4), 4⟩ ∧
    next = (c + v.length) % 2 ^ 32 ∧
    (c < next ↔ v.length ≠ 0 ∧ c + v.length < 2 ^ 32) ∧
    (2 ^ 32 ≤ c + v.length → next < c) := by
  obtain ⟨_, _, hnx, decoded, hvisit⟩ :=
    attributeStep_goto render buf usedSize c next accesses (some v) h
  have hv : v = ⟨c, fetch buf ⟨c, 4⟩, fetch buf ⟨u32 (c + 4), 4⟩, decoded⟩ :=
    Option.some.inj hvisit
  have hlt : fetch buf ⟨u32 (c + 4), 4⟩ < 2 ^ 32 := by
    have := fetch_lt buf ⟨u32 (c + 4), 4⟩
    simpa using this
  subst hv
  simp only
  generalize fetch buf ⟨u32 (c + 4), 4⟩ = len at hnx hlt ⊢
  unfold u32 at hnx
  norm_num at hc32 hlt hnx ⊢
  refine ⟨?_, ?_, ?_⟩
  · exact hnx
  · constructor
    · intro h1
      omega
    · intro h1
      omega
  · intro h1
    omega

/-- C17 (amended), instance: the pass at cursor 56 of `wrappingRecord`, whose
length field is 16. -/
theorem attributeStep_progress_iff_witness :
    (⟨56, 0x80, 16, []⟩ : Visit).attributeOffset = 56 ∧
    (⟨56, 0x80, 16, []⟩ : Visit).length = fetch wrappingRecord ⟨u32 (56 + 4), 4⟩ ∧
    72 = (56 + (⟨56, 0x80, 16, []⟩ : Visit).length) % 2 ^ 32 ∧
    (56 < 72 ↔ (⟨56, 0x80, 16, []⟩ : Visit).length ≠ 0 ∧
      56 + (⟨56, 0x80, 16, []⟩ : Visit).length < 2 ^ 32) ∧
    (2 ^ 32 ≤ 56 + (⟨56, 0x80, 16, []⟩ : Visit).length → 72 < 56) :=
  attributeStep_progress_iff utcRender wrappingRecord 1024 56 72 [⟨56, 4⟩, ⟨60, 4⟩]
    ⟨56, 0x80, 16, []⟩ (by decide) (by decide)

/-! ## C18: the size of the read buffer -/

theorem mul_div_eq_iff_dvd (s : Nat) : s * (1024 / s) = 1024 ↔ s ∣ 1024 := by
  constructor
  · intro h
    exact Dvd.intro _ h
  · intro h
    exact Nat.mul_div_cancel' h

theorem mftBufferSize_eq (s : Nat) (hs : s ≠ 0) :
    mftBufferSize s = some (s * (1024 / s) * 50) := by
  have h1 : 1024 / s ≤ 1024 := Nat.div_le_self _ _
  have h2 : s * (1024 / s) ≤ 1024 := Nat.mul_div_le 1024 s
  unfold mftBufferSize sectorsPerRecord recordSize numRecordsToRead
  rw [if_neg hs]
  simp only [Option.map_some']
  have e1 : u32 (1024 / s) = 1024 / s := u32_of_lt (by omega)
  have e2 : u32 (s * (1024 / s)) = s * (1024 / s) := u32_of_lt (by omega)
  have e3 : u32 (s * (1024 / s) * 50) = s * (1024 / s) * 50 := u32_of_lt (by omega)
  rw [e1, e2, e3]

/-- C18: for every sector size `s`, the read buffer of
`s * (1024 / s) * 50` bytes contains all 50 record ranges
`[i * 1024, (i + 1) * 1024)` if and only if `s` is a non-zero divisor of 1024;
for `s = 0` the division has no value, and for any other `s` that does not
divide 1024 (such as 4096, which gives an empty buffer) the buffer is shorter
than 51200 bytes and the range of record 49 is not inside it. -/
theorem mftBufferSize_holds_records_iff (s : Nat) :
    ((∃ size, mftBufferSize s = some size ∧ ∀ i, i < 50 → (i + 1) * 1024 ≤ size) ↔
      (s ≠ 0 ∧ s ∣ 1024)) ∧
    (s = 0 → mftBufferSize s = none) ∧
    (s ≠ 0 → ¬ s ∣ 1024 →
      ∃ size, mftBufferSize s = some size ∧ size < 51200 ∧ ¬ ((49 + 1) * 1024 ≤ size)) ∧
    mftBufferSize 4096 = some 0 := by
  have h2 : s * (1024 / s) ≤ 1024 := Nat.mul_div_le 1024 s
  refine ⟨⟨?_, ?_⟩, ?_, ?_, by decide⟩
  · rintro ⟨size, hsize, hall⟩
    by_cases hs : s = 0
    · subst hs
      simp [mftBufferSize, sectorsPerRecord] at hsize
    · rw [mftBufferSize_eq s hs] at hsize
      have h49 := hall 49 (by norm_num)
      have : size = s * (1024 / s) * 50 := (Option.some.inj hsize).symm
      refine ⟨hs, (mul_div_eq_iff_dvd s).1 ?_⟩
      omega
  · rintro ⟨hs, hd⟩
    refine ⟨s * (1024 / s) * 50, mftBufferSize_eq s hs, ?_⟩
    intro i hi
    rw [(mul_div_eq_iff_dvd s).2 hd]
    omega
  · intro hs
    subst hs
    simp [mftBufferSize, sectorsPerRecord]
  · intro hs hd
    have hne : s * (1024 / s) ≠ 1024 := fun h => hd ((mul_div_eq_iff_dvd s).1 h)
    refine ⟨s * (1024 / s) * 50, mftBufferSize_eq s hs, ?_, ?_⟩ <;> omega

/-- C18, instance: sector size 512, a divisor of 1024. -/
theorem mftBufferSize_holds_records_iff_witness :
    ((∃ size, mftBufferSize 512 = some size ∧ ∀ i, i < 50 → (i + 1) * 1024 ≤ size) ↔
      (512 ≠ 0 ∧ 512 ∣ 1024)) ∧
    (512 = 0 → mftBufferSize 512 = none) ∧
    (512 ≠ 0 → ¬ 512 ∣ 1024 →
      ∃ size, mftBufferSize 512 = some size ∧ size < 51200 ∧ ¬ ((49 + 1) * 1024 ≤ size)) ∧
    mftBufferSize 4096 = some 0 :=
  mftBufferSize_holds_records_iff 512

/-! ## C14: the scan over the records -/

theorem recordBuffer_append_zero (record rest : Buffer) (h : record.length = 1024) :
    recordBuffer (record ++ rest) 0 = some record := by
  unfold recordBuffer recordSize
  have hle : (0 + 1) * 1024 ≤ (record ++ rest).length := by
    simp only [List.length_append]; omega
  rw [if_pos hle]
  simp only [Nat.zero_mul, List.drop_zero]
  rw [List.take_append_of_le_length (by omega), List.take_of_length_le (by omega)]

theorem recordBuffer_append_succ (record rest : Buffer) (i : Nat) (h : record.length = 1024) :
    recordBuffer (record ++ rest) (i + 1) = recordBuffer rest i := by
  unfold recordBuffer recordSize
  have hd : (record ++ rest).drop ((i + 1) * 1024) = rest.drop (i * 1024) := by
    have e : (i + 1) * 1024 = record.length + i * 1024 := by omega
    rw [e, List.drop_append]
  have hc : ((i + 1 + 1) * 1024 ≤ (record ++ rest).length) ↔ ((i + 1) * 1024 ≤ rest.length) := by
    simp only [List.length_append]; omega
  rw [hd]
  by_cases hr : (i + 1) * 1024 ≤ rest.length
  · rw [if_pos (hc.2 hr), if_pos hr]
  · rw [if_neg (fun h2 => hr (hc.1 h2)), if_neg hr]

theorem zeroLengthRecord_still_running (render : Int → String) (fuel : Nat) :
    (ParseAndPrintMFTRecord render fuel zeroLengthRecord).returns = false ∧
    (ParseAndPrintMFTRecord render fuel zeroLengthRecord).attributes.map (fun w => w.stop) =
      some (Stop.outOfFuel 56) := by
  have hsig : zeroLengthRecord.take 4 = fileSignature := by decide
  have hlen : zeroLengthRecord.length = 1024 := by decide
  have hfirst : fetch zeroLengthRecord ⟨20, 2⟩ = 56 := by decide
  have hused : fetch zeroLengthRecord ⟨24, 4⟩ = 1024 := by decide
  have hty : fetch zeroLengthRecord ⟨56, 4⟩ = 0x10 := by decide
  have hzero : fetch zeroLengthRecord ⟨56 + 4, 4⟩ = 0 := by decide
  have hstep := attributeStep_standardInformation render zeroLengthRecord 1024 56
    (by norm_num) (by rw [hlen]; norm_num) (by norm_num) hty
  rw [hzero] at hstep
  have h56 : u32 (56 + 0) = 56 := by decide
  rw [h56] at hstep
  have hstop := walk_stuck render zeroLengthRecord 1024 56 _ _ hstep fuel
  rw [ParseAndPrintMFTRecord_file render fuel zeroLengthRecord hsig (by rw [hlen]; norm_num),
    hfirst, hused]
  simp only [ParseResult.returns, ParseResult.attributes, Option.map_some', hstop]
  exact ⟨trivial, trivial⟩

theorem scanFrom_length_of_returns (render : Int → String) (fuel : Nat) (buffer : Buffer) :
    ∀ count i,
      (∀ j, i ≤ j → j < i + count → ∃ record, recordBuffer buffer j = some record ∧
        (ParseAndPrintMFTRecord render fuel record).returns = true) →
      (scanFrom render fuel buffer count i).length = count ∧
      ∀ k, k < count → ∃ record, recordBuffer buffer (i + k) = some record ∧
        (scanFrom render fuel buffer count i)[k]? =
          some (ParseAndPrintMFTRecord render fuel record) := by
  intro count
  induction count with
  | zero =>
    intro i _
    exact ⟨rfl, fun k hk => absurd hk (Nat.not_lt_zero k)⟩
  | succ n ih =>
    intro i hall
    obtain ⟨record, hrec, hret⟩ := hall i (le_refl i) (by omega)
    obtain ⟨hlen, hget⟩ := ih (i + 1) (fun j h1 h2 => hall j (by omega) (by omega))
    have hscan : scanFrom render fuel buffer (n + 1) i =
        ParseAndPrintMFTRecord render fuel record :: scanFrom render fuel buffer n (i + 1) := by
      simp only [scanFrom, hrec, hret, if_true]
    rw [hscan]
    refine ⟨by simp [hlen], ?_⟩
    intro k hk
    cases k with
    | zero => exact ⟨record, hrec, by simp⟩
    | succ m =>
      obtain ⟨r, hr, hg⟩ := hget m (by omega)
      refine ⟨r, ?_, ?_⟩
      · rw [← hr]; congr 1; omega
      · simpa using hg

theorem scanFrom_of_not_returns (render : Int → String) (fuel : Nat) (buffer : Buffer)
    (count i : Nat) (record : Buffer) (hrec : recordBuffer buffer i = some record)
    (hrun : (ParseAndPrintMFTRecord render fuel record).returns = false) :
    scanFrom render fuel buffer (count + 1) i = [ParseAndPrintMFTRecord render fuel record] := by
  simp only [scanFrom, hrec, hrun]
  rfl

/-- C14 (the code at the failing input): in a read buffer of 50 records whose
record 0 is `zeroLengthRecord`, the call of `ParseAndPrintMFTRecord` for record
0 never returns, whatever number of loop tests it is given, so the scan
consists of that one call: none of the records 1 to 49 is parsed. -/
theorem scanRecords_stops_at_zero_length (render : Int → String) (fuel : Nat) :
    scanBufferZeroLengthFirst.length = 50 * 1024 ∧
    scanRecords render fuel scanBufferZeroLengthFirst =
      [ParseAndPrintMFTRecord render fuel zeroLengthRecord] ∧
    (ParseAndPrintMFTRecord render fuel zeroLengthRecord).returns = false := by
  have hlen : zeroLengthRecord.length = 1024 := by decide
  have hex : exampleRecord.length = 1024 := by decide
  have hrec := recordBuffer_append_zero zeroLengthRecord
    (List.replicate 49 exampleRecord).flatten hlen
  have hrun := (zeroLengthRecord_still_running render fuel).1
  refine ⟨?_, ?_, hrun⟩
  · unfold scanBufferZeroLengthFirst
    rw [List.length_append, List.length_flatten, List.map_replicate, hlen, hex,
      List.sum_replicate]
    rfl
  · exact scanFrom_of_not_returns render fuel _ 49 0 zeroLengthRecord hrec hrun

/-! ## Reads in a vector followed by further memory -/

theorem fetch_append_left (buf beyond : Buffer) (a : Access)
    (h : a.index + a.width ≤ buf.length) : fetch (buf ++ beyond) a = fetch buf a := by
  unfold fetch
  rw [List.drop_append_of_le_length (by omega),
    List.take_append_of_le_length (by simp only [List.length_drop]; omega)]

theorem take_four_append (buf beyond : Buffer) (h : 4 ≤ buf.length) :
    (buf ++ beyond).take 4 = buf.take 4 :=
  List.take_append_of_le_length h

theorem attributeStep_visit (render : Int → String) (mem : Buffer) (usedSize c : Nat)
    (hc : c < usedSize) (h8 : c + 8 ≤ mem.length) (h8w : c + 8 < 2 ^ 32)
    (hne : fetch mem ⟨c, 4⟩ ≠ 0xFFFFFFFF)
    (h10 : fetch mem ⟨c, 4⟩ = 0x10 → c + 56 ≤ mem.length ∧ c + 56 < 2 ^ 32)
    (h30 : fetch mem ⟨c, 4⟩ = 0x30 →
      c + 90 + 2 * fetch mem ⟨c + 88, 1⟩ ≤ mem.length ∧
      c + 90 + 2 * fetch mem ⟨c + 88, 1⟩ < 2 ^ 32) :
    ∃ accesses, attributeStep render mem usedSize c =
        ⟨accesses,
         some (expectedVisit render mem ⟨c, fetch mem ⟨c, 4⟩, fetch mem ⟨c + 4, 4⟩⟩),
         Next.goto (u32 (c + fetch mem ⟨c + 4, 4⟩))⟩ ∧
      ∀ a ∈ accesses, a.index + a.width ≤ c + 8 ∨
        (fetch mem ⟨c, 4⟩ = 0x10 ∧ a.index + a.width ≤ c + 56) ∨
        (fetch mem ⟨c, 4⟩ = 0x30 ∧
          a.index + a.width ≤ c + 90 + 2 * fetch mem ⟨c + 88, 1⟩) := by
  have e4 : u32 (c + 4) = c + 4 := u32_of_lt (by omega)
  by_cases e10 : fetch mem ⟨c, 4⟩ = 0x10
  · obtain ⟨hin, hw⟩ := h10 e10
    have hstep := attributeStep_standardInformation render mem usedSize c hc hin
      (by omega) e10
    refine ⟨[⟨c, 4⟩, ⟨c + 4, 4⟩, ⟨c + 24, 8⟩, ⟨c + 32, 8⟩, ⟨c + 40, 8⟩, ⟨c + 48, 8⟩], ?_, ?_⟩
    · rw [hstep]
      simp [expectedVisit, decodedFields, e10]
    · intro a ha
      simp only [List.mem_cons, List.mem_singleton, List.not_mem_nil, or_false] at ha
      rcases ha with rfl | rfl | rfl | rfl | rfl | rfl <;> simp only <;> omega
  · by_cases e30 : fetch mem ⟨c, 4⟩ = 0x30
    · obtain ⟨hin, hw⟩ := h30 e30
      have hstep := attributeStep_fileName render mem usedSize c hc hin (by omega) e30
      refine ⟨[⟨c, 4⟩, ⟨c + 4, 4⟩, ⟨c + 88, 1⟩, ⟨c + 90, 2 * fetch mem ⟨c + 88, 1⟩⟩],
        ?_, ?_⟩
      · rw [hstep]
        simp [expectedVisit, decodedFields, e30]
      · intro a ha
        simp only [List.mem_cons, List.mem_singleton, List.not_mem_nil, or_false] at ha
        rcases ha with rfl | rfl | rfl | rfl <;> simp only <;> omega
    · have hstep := attributeStep_other_wrapped render mem usedSize c hc (by omega)
        (by rw [e4]; omega) hne e10 e30
      rw [e4] at hstep
      refine ⟨[⟨c, 4⟩, ⟨c + 4, 4⟩], ?_, ?_⟩
      · rw [hstep]
        simp [expectedVisit, decodedFields, e10, e30]
      · intro a ha
        simp only [List.mem_cons, List.mem_singleton, List.not_mem_nil, or_false] at ha
        rcases ha with rfl | rfl <;> simp only <;> omega

theorem nameLength_lt (mem : Buffer) (i : Nat) : fetch mem ⟨i, 1⟩ < 256 := by
  have := fetch_lt mem ⟨i, 1⟩
  simpa using this

theorem ParseAndPrintMFTRecordInMemory_file (render : Int → String) (fuel : Nat)
    (buf beyond : Buffer) (hsig : buf.take 4 = fileSignature) (hheader : 42 ≤ buf.length) :
    (ParseAndPrintMFTRecordInMemory render fuel buf beyond).attributes =
      some (walk render (buf ++ beyond) (fetch buf ⟨24, 4⟩) fuel (fetch buf ⟨20, 2⟩)) := by
  unfold ParseAndPrintMFTRecordInMemory
  rw [ParseAndPrintMFTRecord_file render fuel (buf ++ beyond)
    (by rw [take_four_append buf beyond (by omega)]; exact hsig)
    (by simp only [List.length_append]; omega),
    fetch_append_left buf beyond ⟨24, 4⟩ (by simp only; omega),
    fetch_append_left buf beyond ⟨20, 2⟩ (by simp only; omega)]
  rfl

theorem usedSize_lt (buf : Buffer) : fetch buf ⟨24, 4⟩ < 2 ^ 32 := by
  have := fetch_lt buf ⟨24, 4⟩
  simpa using this

/-! ## The loop on an attribute chain -/

theorem attributeStep_chain_entry (render : Int → String) (mem : Buffer)
    (usedSize o ty len : Nat) (hsize : usedSize + 600 ≤ 2 ^ 32)
    (hroom : usedSize + 600 ≤ mem.length)
    (ho : o < usedSize) (hty : fetch mem ⟨o, 4⟩ = ty)
    (hne : ty ≠ 0xFFFFFFFF) (hlen : fetch mem ⟨o + 4, 4⟩ = len)
    (hfit : o + len ≤ usedSize) :
    ∃ accesses, attributeStep render mem usedSize o =
      ⟨accesses, some (expectedVisit render mem ⟨o, ty, len⟩), Next.goto (o + len)⟩ := by
  have hn := nameLength_lt mem (o + 88)
  obtain ⟨accesses, hstep, _⟩ := attributeStep_visit render mem usedSize o ho
    (by omega) (by omega) (by rw [hty]; exact hne)
    (fun _ => ⟨by omega, by omega⟩) (fun _ => ⟨by omega, by omega⟩)
  rw [hty, hlen, u32_of_lt (by omega)] at hstep
  exact ⟨accesses, hstep⟩

theorem walk_attributeChain_fit (render : Int → String) (mem : Buffer) (usedSize : Nat)
    (hsize : usedSize + 600 ≤ 2 ^ 32) (hroom : usedSize + 600 ≤ mem.length)
    {o : Nat} {attrs : List AttributeHeader} {stop : Nat}
    (hl : AttributeChain mem usedSize o attrs stop) :
    ∀ fuel, ∀ v ∈ (walk render mem usedSize fuel o).visits,
      1 ≤ v.length ∧ v.attributeOffset + v.length ≤ usedSize := by
  induction hl with
  | bound o hle =>
    intro fuel v hv
    cases fuel with
    | zero => simp [walk_zero] at hv
    | succ n =>
      rw [walk_leave render _ usedSize n o _ _
        (attributeStep_bound render _ usedSize o hle)] at hv
      simp at hv
  | terminator o ho hb ht =>
    intro fuel v hv
    cases fuel with
    | zero => simp [walk_zero] at hv
    | succ n =>
      rw [walk_leave render _ usedSize n o _ _
        (attributeStep_terminator render _ usedSize o ho hb ht)] at hv
      simp at hv
  | entry o ty len rest stop ho h8 hty hne hlen hpos hfit _ ih =>
    intro fuel v hv
    cases fuel with
    | zero => simp [walk_zero] at hv
    | succ n =>
      obtain ⟨accesses, hstep⟩ := attributeStep_chain_entry render mem usedSize o ty
        len hsize hroom ho hty hne hlen hfit
      rw [walk_goto render _ usedSize n o _ _ _ hstep] at hv
      simp only [Option.toList, List.singleton_append, List.mem_cons] at hv
      rcases hv with rfl | hv
      · simp only [expectedVisit]
        omega
      · exact ih n v hv

/-! ## C7: the order of the walk -/

theorem walk_attributesWithin_accesses (render : Int → String) (buf : Buffer)
    (usedSize : Nat) (h32 : usedSize < 2 ^ 32) (hub : usedSize ≤ buf.length)
    {o : Nat} (hl : AttributesWithin buf usedSize o) :
    ∀ fuel, ∀ a ∈ (walk render buf usedSize fuel o).accesses,
      a.index + a.width ≤ usedSize := by
  induction hl with
  | bound o hle =>
    intro fuel a ha
    cases fuel with
    | zero => simp [walk_zero] at ha
    | succ n =>
      rw [walk_leave render buf usedSize n o _ _
        (attributeStep_bound render buf usedSize o hle)] at ha
      simp at ha
  | terminator o hb ht =>
    intro fuel a ha
    cases fuel with
    | zero => simp [walk_zero] at ha
    | succ n =>
      rw [walk_leave render buf usedSize n o _ _
        (attributeStep_terminator render buf usedSize o (by omega) (by omega) ht)] at ha
      simp only [List.mem_singleton] at ha
      subst ha
      exact hb
  | entry o hne h8 hfit h10 h30 _ ih =>
    intro fuel a ha
    cases fuel with
    | zero => simp [walk_zero] at ha
    | succ n =>
      obtain ⟨accesses, hstep, hacc⟩ := attributeStep_visit render buf usedSize o
        (by omega) (by omega) (by omega) hne
        (fun h => ⟨by have := h10 h; omega, by have := h10 h; omega⟩)
        (fun h => ⟨by have := h30 h; omega, by have := h30 h; omega⟩)
      rw [u32_of_lt (by omega)] at hstep
      rw [walk_goto render buf usedSize n o _ _ _ hstep] at ha
      rcases List.mem_append.mp ha with ha | ha
      · rcases hacc a ha with h | ⟨h, hle⟩ | ⟨h, hle⟩
        · omega
        · have := h10 h; omega
        · have := h30 h; omega
      · exact ih n a ha

/-- C3 (amended): for every record buffer with signature "FILE" that holds the
header, with `usedSize` at most the buffer length, in which every cursor
reached below `usedSize` either carries the marker 0xFFFFFFFF in four bytes
that end at or before `usedSize`, or starts an attribute whose length is at
least 8, at least 56 when its type is 0x10 and at least `90 + 2 * nameLength`
when its type is 0x30, with `cursor + length ≤ usedSize`: every byte the loop
reads, however long it runs, lies in `[0, usedSize)` and therefore inside the
buffer.  `allocatedSize` is not consulted. -/
theorem ParseAndPrintMFTRecord_accesses_within_usedSize (render : Int → String)
    (buf : Buffer) (fuel : Nat)
    (hsig : buf.take 4 = fileSignature) (hheader : 42 ≤ buf.length)
    (hused : fetch buf ⟨24, 4⟩ ≤ buf.length)
    (hwithin : AttributesWithin buf (fetch buf ⟨24, 4⟩) (fetch buf ⟨20, 2⟩)) :
    ∃ w, (ParseAndPrintMFTRecord render fuel buf).attributes = some w ∧
      ∀ a ∈ w.accesses,
        a.index + a.width ≤ fetch buf ⟨24, 4⟩ ∧ a.index + a.width ≤ buf.length := by
  refine ⟨walk render buf (fetch buf ⟨24, 4⟩) fuel (fetch buf ⟨20, 2⟩), ?_, ?_⟩
  · rw [ParseAndPrintMFTRecord_file render fuel buf hsig hheader]
    rfl
  · intro a ha
    have h := walk_attributesWithin_accesses render buf _ (usedSize_lt buf) hused hwithin
      fuel a ha
    exact ⟨h, by omega⟩

/-- C3 (amended), instance: the example record, whose type-0x10 attribute of
length 96 at offset 56 is followed by the marker at offset 152, below its
`usedSize` of 160. -/
theorem ParseAndPrintMFTRecord_accesses_within_usedSize_witness :
    ∃ w, (ParseAndPrintMFTRecord utcRender 5 exampleRecord).attributes = some w ∧
      ∀ a ∈ w.accesses,
        a.index + a.width ≤ fetch exampleRecord ⟨24, 4⟩ ∧
        a.index + a.width ≤ exampleRecord.length := by
  have hu : fetch exampleRecord ⟨24, 4⟩ = 160 := by decide
  have hf : fetch exampleRecord ⟨20, 2⟩ = 56 := by decide
  have h152 : 56 + fetch exampleRecord ⟨56 + 4, 4⟩ = 152 := by decide
  have hterm : AttributesWithin exampleRecord 160 152 :=
    AttributesWithin.terminator 152 (by decide) (by decide)
  have hl : AttributesWithin exampleRecord 160 56 :=
    AttributesWithin.entry 56 (by decide) (by decide) (by decide) (by decide) (by decide)
      (by rw [h152]; exact hterm)
  exact ParseAndPrintMFTRecord_accesses_within_usedSize utcRender exampleRecord 5
    (by decide) (by decide) (by decide) (by rw [hu, hf]; exact hl)

/-! ## C16: termination of the loop -/

theorem u32_le (n : Nat) : u32 n ≤ n := Nat.mod_le n _

theorem standardInformationBlock_no_fault (render : Int → String) (mem : Buffer) (c : Nat)
    (h : c + 56 ≤ mem.length) : (standardInformationBlock render mem c).fault = none := by
  have h24 := u32_le (c + 24)
  have h32 := u32_le (c + 32)
  have h40 := u32_le (c + 40)
  have h48 := u32_le (c + 48)
  have e : firstOutside mem (standardInformationAccesses c) = none := by
    simp only [standardInformationAccesses, firstOutside,
      (inBounds_iff mem ⟨u32 (c + 24), 8⟩).mpr (by simp only; omega),
      (inBounds_iff mem ⟨u32 (c + 32), 8⟩).mpr (by simp only; omega),
      (inBounds_iff mem ⟨u32 (c + 40), 8⟩).mpr (by simp only; omega),
      (inBounds_iff mem ⟨u32 (c + 48), 8⟩).mpr (by simp only; omega), if_true]
  simp only [standardInformationBlock, e]

theorem fileNameBlock_no_fault (mem : Buffer) (c : Nat) (h : c + 600 ≤ mem.length) :
    (fileNameBlock mem c).fault = none := by
  have h88 := u32_le (c + 88)
  have h90 := u32_le (c + 90)
  have hn := nameLength_lt mem (u32 (c + 88))
  simp only [fileNameBlock,
    (inBounds_iff mem ⟨u32 (c + 88), 1⟩).mpr (by simp only; omega),
    (inBounds_iff mem ⟨u32 (c + 90), 2 * fetch mem ⟨u32 (c + 88), 1⟩⟩).mpr
      (by simp only; omega), if_true]

theorem attributeStep_no_fault (render : Int → String) (mem : Buffer) (usedSize c : Nat)
    (hroom : usedSize + 600 ≤ mem.length) (a : Access) :
    (attributeStep render mem usedSize c).next ≠ Next.fault a := by
  by_cases hc : c < usedSize
  · by_cases ht : fetch mem ⟨c, 4⟩ = 0xFFFFFFFF
    · rw [attributeStep_terminator render mem usedSize c hc (by omega) ht]
      simp
    · have h4 := u32_le (c + 4)
      have hsi : (if fetch mem ⟨c, 4⟩ = 0x10 then standardInformationBlock render mem c
          else Block.skip).fault = none := by
        split
        · exact standardInformationBlock_no_fault render mem c (by omega)
        · rfl
      have hfn : (if fetch mem ⟨c, 4⟩ = 0x30 then fileNameBlock mem c
          else Block.skip).fault = none := by
        split
        · exact fileNameBlock_no_fault mem c (by omega)
        · rfl
      simp only [attributeStep, hc, if_true, ht, if_false,
        (inBounds_iff mem ⟨c, 4⟩).mpr (by simp only; omega),
        (inBounds_iff mem ⟨u32 (c + 4), 4⟩).mpr (by simp only; omega), hsi, hfn]
      simp
  · rw [attributeStep_bound render mem usedSize c (by omega)]
    simp

theorem walk_no_fault (render : Int → String) (mem : Buffer) (usedSize : Nat)
    (hroom : usedSize + 600 ≤ mem.length) :
    ∀ fuel c a, (walk render mem usedSize fuel c).stop ≠ Stop.fault a := by
  intro fuel
  induction fuel with
  | zero =>
    intro c a
    simp [walk_zero]
  | succ n ih =>
    intro c a
    cases hstep : attributeStep render mem usedSize c with
    | mk accesses visit next =>
      cases next with
      | leave =>
        rw [walk_leave render mem usedSize n c accesses visit hstep]
        simp
      | fault b =>
        have := attributeStep_no_fault render mem usedSize c hroom b
        rw [hstep] at this
        exact absurd rfl this
      | goto next =>
        rw [walk_goto render mem usedSize n c accesses visit next hstep]
        exact ih next a

/-- C16 (as stated, refuted): `nearEndRecord` has signature "FILE", `usedSize`
equal to the buffer length 1024, and a single attribute, at offset 56, of
length 966, so that `56 + 966 ≤ usedSize`.  After it the cursor is 1022, below
`usedSize`; the loop reads a type and a length there, the length wholly from
the bytes that follow the buffer in memory.  When those bytes are zero the
length read is 0 and the cursor stays at 1022: however many loop tests are
allowed, the loop has not ended. -/
theorem nearEndRecord_loop_never_ends :
    nearEndRecord.take 4 = fileSignature ∧ nearEndRecord.length = 1024 ∧
    fetch nearEndRecord ⟨20, 2⟩ = 56 ∧ fetch nearEndRecord ⟨24, 4⟩ = 1024 ∧
    fetch nearEndRecord ⟨56, 4⟩ = 0x80 ∧ fetch nearEndRecord ⟨56 + 4, 4⟩ = 966 ∧
    56 + 966 ≤ 1024 ∧
    ∀ fuel, ∃ w,
      (ParseAndPrintMFTRecordInMemory utcRender fuel nearEndRecord (zeros 600)).attributes =
        some w ∧ ∃ e, w.stop = Stop.outOfFuel e := by
  have h1 : attributeStep utcRender (nearEndRecord ++ zeros 600) 1024 56 =
      ⟨[⟨56, 4⟩, ⟨60, 4⟩], some ⟨56, 0x80, 966, []⟩, Next.goto 1022⟩ := by decide
  have h2 : attributeStep utcRender (nearEndRecord ++ zeros 600) 1024 1022 =
      ⟨[⟨1022, 4⟩, ⟨1026, 4⟩], some ⟨1022, 0, 0, []⟩, Next.goto 1022⟩ := by decide
  have hu : fetch nearEndRecord ⟨24, 4⟩ = 1024 := by decide
  have hf : fetch nearEndRecord ⟨20, 2⟩ = 56 := by decide
  refine ⟨by decide, by decide, hf, hu, by decide, by decide, by decide, ?_⟩
  intro fuel
  refine ⟨walk utcRender (nearEndRecord ++ zeros 600) 1024 fuel 56, ?_, ?_⟩
  · rw [ParseAndPrintMFTRecordInMemory_file utcRender fuel nearEndRecord (zeros 600)
      (by decide) (by decide), hu, hf]
  · cases fuel with
    | zero => exact ⟨56, rfl⟩
    | succ n =>
      rw [walk_goto utcRender _ 1024 n 56 _ _ 1022 h1]
      exact ⟨1022, walk_stuck utcRender _ 1024 1022 _ _ h2 n⟩

/-- C16 (amended): take a record buffer with signature "FILE" that holds the 42
header bytes, with `usedSize` at most the buffer length, followed in memory by
at least 600 bytes.  If every attribute the walk reaches, as the loop reads it
from the buffer and, where a field extends past the end of the buffer, from
the bytes that follow, has length at least 1 and `cursor + length ≤ usedSize`,
then the loop terminates: given more than `usedSize - firstAttributeOffset`
loop tests it ends at its test or at a terminator, the cursor strictly
increases from each iteration to the next, and the loop body runs at most
`usedSize - firstAttributeOffset` times. -/
theorem ParseAndPrintMFTRecordInMemory_loop_terminates (render : Int → String)
    (buf beyond : Buffer) (fuel : Nat)
    (hsig : buf.take 4 = fileSignature) (hheader : 42 ≤ buf.length)
    (hused : fetch buf ⟨24, 4⟩ ≤ buf.length) (hbeyond : 600 ≤ beyond.length)
    (hfit : ∀ k w, (ParseAndPrintMFTRecordInMemory render k buf beyond).attributes = some w →
      ∀ v ∈ w.visits, 1 ≤ v.length ∧ v.attributeOffset + v.length ≤ fetch buf ⟨24, 4⟩)
    (hfuel : fetch buf ⟨24, 4⟩ - fetch buf ⟨20, 2⟩ < fuel) :
    ∃ w, (ParseAndPrintMFTRecordInMemory render fuel buf beyond).attributes = some w ∧
      (∃ e, w.stop = Stop.finished e) ∧
      List.Pairwise (fun a b => a < b) (w.visits.map (fun v => v.attributeOffset)) ∧
      w.visits.length ≤ fetch buf ⟨24, 4⟩ - fetch buf ⟨20, 2⟩ ∧
      loopBodyRuns render (buf ++ beyond) (fetch buf ⟨24, 4⟩) fuel (fetch buf ⟨20, 2⟩) ≤
        fetch buf ⟨24, 4⟩ - fetch buf ⟨20, 2⟩ := by
  have hfile := fun k => ParseAndPrintMFTRecordInMemory_file render k buf beyond hsig hheader
  have hp := walk_progress render (buf ++ beyond) (fetch buf ⟨24, 4⟩) (usedSize_lt buf) fuel
    (fetch buf ⟨20, 2⟩) (fun k v hv => hfit k _ (hfile k) v hv)
  have hnf := walk_no_fault render (buf ++ beyond) (fetch buf ⟨24, 4⟩)
    (by simp only [List.length_append]; omega) fuel (fetch buf ⟨20, 2⟩)
  refine ⟨_, hfile fuel, ?_, hp.2.1, hp.2.2.1, hp.2.2.2.1⟩
  have hno := hp.2.2.2.2 hfuel
  cases hs : (walk render (buf ++ beyond) (fetch buf ⟨24, 4⟩) fuel (fetch buf ⟨20, 2⟩)).stop with
  | finished e => exact ⟨e, rfl⟩
  | fault a => exact absurd hs (hnf a)
  | outOfFuel e => exact absurd hs (hno e)

/-- C16 (amended), instance: the record with three attributes (lengths 96, 104
and 24 from offset 56) and a terminator at offset 280, with `usedSize` 400,
followed in memory by 600 zero bytes. -/
theorem ParseAndPrintMFTRecordInMemory_loop_terminates_witness :
    ∃ w, (ParseAndPrintMFTRecordInMemory utcRender 345 threeAttributeRecord
        (zeros 600)).attributes = some w ∧
      (∃ e, w.stop = Stop.finished e) ∧
      List.Pairwise (fun a b => a < b) (w.visits.map (fun v => v.attributeOffset)) ∧
      w.visits.length ≤
        fetch threeAttributeRecord ⟨24, 4⟩ - fetch threeAttributeRecord ⟨20, 2⟩ ∧
      loopBodyRuns utcRender (threeAttributeRecord ++ zeros 600)
          (fetch threeAttributeRecord ⟨24, 4⟩) 345 (fetch threeAttributeRecord ⟨20, 2⟩) ≤
        fetch threeAttributeRecord ⟨24, 4⟩ - fetch threeAttributeRecord ⟨20, 2⟩ := by
  have hu : fetch threeAttributeRecord ⟨24, 4⟩ = 400 := by decide
  have hf : fetch threeAttributeRecord ⟨20, 2⟩ = 56 := by decide
  have hl : AttributeChain (threeAttributeRecord ++ zeros 600) 400 56
      [⟨56, 0x10, 96⟩, ⟨152, 0x30, 104⟩, ⟨256, 0x80, 24⟩] 280 :=
    AttributeChain.entry 56 0x10 96 _ 280 (by decide) (by decide) (by decide) (by decide)
      (by decide) (by decide) (by decide)
      (AttributeChain.entry 152 0x30 104 _ 280 (by decide) (by decide) (by decide)
        (by decide) (by decide) (by decide) (by decide)
        (AttributeChain.entry 256 0x80 24 _ 280 (by decide) (by decide) (by decide)
          (by decide) (by decide) (by decide) (by decide)
          (AttributeChain.terminator 280 (by decide) (by decide) (by decide))))
  have hfit : ∀ k w, (ParseAndPrintMFTRecordInMemory utcRender k threeAttributeRecord
      (zeros 600)).attributes = some w →
      ∀ v ∈ w.visits, 1 ≤ v.length ∧
        v.attributeOffset + v.length ≤ fetch threeAttributeRecord ⟨24, 4⟩ := by
    intro k w hw v hv
    rw [ParseAndPrintMFTRecordInMemory_file utcRender k threeAttributeRecord (zeros 600)
      (by decide) (by decide), hu, hf] at hw
    have hw2 := Option.some.inj hw
    subst hw2
    rw [hu]
    exact walk_attributeChain_fit utcRender (threeAttributeRecord ++ zeros 600) 400
      (by decide) (by decide) hl k v hv
  exact ParseAndPrintMFTRecordInMemory_loop_terminates utcRender threeAttributeRecord
    (zeros 600) 345 (by decide) (by decide) (by decide) (by decide) hfit (by decide)

end NTFSParse
